import Mathlib

/-!
# Embedded Tor 0.3.3 process (package tor033)

A shallow embedding of `process/embedded/tor-0.3.3/process.go`: the struct
`embeddedProcess`, the methods `New`, `Start`, `Wait` and `EmbeddedControlConn`,
the C helpers `makeCharArray` and `setArrayString` of the cgo preamble, and the
goroutine launched by `Start`.

The native entry points of the linked daemon (`tor_main_configuration_new`,
`tor_main_configuration_set_command_line`, `tor_main_configuration_free`,
`tor_run_main`) are outside the file: the values they return are inputs of the
model, and every call (also of the helper `freeCharArray`) is recorded in a
trace.

Concurrency is modelled by interleaving: the goroutine is a small program
counter machine, and a blocked `select` is an operation that is not enabled.
-/

namespace Tor033


/-! ## Values -/

/-- Conversion `C.int(n)`: C `int` is 32 bits wide, two's complement. -/
def cInt (n : Int) : Int := (n + 2147483648) % 4294967296 - 2147483648

/-- A `context.Context` value: `context.Background()` or a context made by the
caller, named by a number. -/
inductive Context where
  | background
  | user (id : Nat)
deriving DecidableEq, Repr

/-- The non-nil values `ctx.Err()` can take. -/
inductive CtxErr where
  | canceled
  | deadlineExceeded
deriving DecidableEq, Repr

/-- Go `error` values met in the file, told apart by where they are made:
`fmt.Errorf` with the formatted message, the error of a context, and the
package variable `process.ErrControlConnUnsupported`. -/
inductive Error where
  | errorf (msg : String)
  | ofContext (err : CtxErr)
  | controlConnUnsupported
deriving DecidableEq, Repr

/-- A fault of the process (undefined behaviour on the C side): a write
through a NULL pointer or outside the allocation. -/
inductive Fault where
  | segv
deriving DecidableEq, Repr

/-- A Go `string`: any sequence of bytes. -/
abbrev GoString := List UInt8

/-- A C string, as a callee reads it through a `char*`: the bytes before the
terminating NUL, none of them 0. -/
abbrev CStr := List UInt8

/-- The memory behind a `char**`: one slot per pointer, `none` for a NULL
slot, `some s` for a pointer to the C string `s`. -/
abbrev CharArray := List (Option CStr)

/-- A `char**` value: NULL (`none`) or a pointer to an array. -/
abbrev CharArrayPtr := Option CharArray

/-- The struct `embeddedProcess`. A nil `ctx` or `doneCh` is `none`; a channel
is named by its index in the channel heap of the world. -/
structure embeddedProcess where
  ctx : Option Context
  args : List GoString
  doneCh : Option Nat
deriving DecidableEq, Repr

/-- Program counter of the goroutine launched by `Start`:
`spawned` before `tor_run_main` is called, `running` inside the call,
`returned code` once it has returned and the send is pending, `sent` after the
send, `confFreed` after the deferred `tor_main_configuration_free`, `done`
after the deferred `freeCharArray`. -/
inductive Pc where
  | spawned
  | running
  | returned (code : Int)
  | sent
  | confFreed
  | done
deriving DecidableEq, Repr

/-- The goroutine of `Start` with the variables its closure captured. -/
structure Task where
  conf : Nat
  charArray : Nat
  size : Int
  pc : Pc
deriving DecidableEq, Repr

/-- What is recorded in the trace: native calls with their arguments (and
result), channel operations, and the returns of the exported methods. -/
inductive Event where
  | makeCharArray (size : Int) (arr : Nat)
  | confNew (conf : Nat)
  | setCommandLine (conf : Nat) (argc : Int) (argv : CharArrayPtr) (code : Int)
  | confFree (conf : Nat)
  | freeCharArray (arr : Nat) (size : Int)
  | makeChan (ch : Nat)
  | go (task : Nat)
  | runMain (conf : Nat)
  | runMainRet (conf : Nat) (code : Int)
  | send (ch : Nat) (v : Int)
  | recv (ch : Nat) (v : Int)
  | startRet (err : Option Error)
  | waitRet (err : Option Error)
  | controlConnRet (err : Option Error)
deriving DecidableEq, Repr

/-- Everything outside the struct: the buffers of the channels made so far,
the goroutines launched so far, the contexts whose `Done` channel is closed
(with their `Err`), the counters naming the next configuration and array, and
the trace. -/
structure World where
  chans : List (List Int)
  tasks : List Task
  cancelled : List (Nat × CtxErr)
  nextConf : Nat
  nextArr : Nat
  trace : List Event
deriving DecidableEq, Repr

/-- The value of `ctx.Err()`: `none` (nil) until the context is cancelled.
`ctx.Done()` is closed exactly when it is not nil. -/
def World.ctxErr (w : World) : Context → Option CtxErr
  | .background => none
  | .user id => w.cancelled.lookup id

/-- Cancellation of a context: the first error stays. -/
def World.cancel (w : World) (id : Nat) (err : CtxErr) : World :=
  match w.cancelled.lookup id with
  | some _ => w
  | none => { w with cancelled := (id, err) :: w.cancelled }

/-- Append events to the trace. -/
def World.log (w : World) (evs : List Event) : World :=
  { w with trace := w.trace ++ evs }

/-! ## The C helpers of the cgo preamble -/

/-- The helper `makeCharArray`: `calloc(sizeof(char*), size)`. A negative `int`
converted to `size_t` asks for more than the address space, so `calloc` returns
NULL; otherwise the array has `size` NULL slots. -/
def makeCharArray (size : Int) : CharArrayPtr :=
  if size < 0 then none else some (List.replicate size.toNat none)

/-- The conversion `C.CString(s)`: a fresh copy of the bytes of `s` followed by
a NUL. Read as a C string it is `s` up to its first NUL byte, so all of `s`
when `s` has none. -/
def CString (s : GoString) : CStr := s.takeWhile (· ≠ 0)

/-- The C strings of a list of Go strings, one slot each. -/
def cStrings (args : List GoString) : CharArray := args.map fun a => some (CString a)

/-- The helper `setArrayString`: `a[n] = s`. A write through NULL or outside the
array is a fault. -/
def setArrayString (a : CharArrayPtr) (s : CStr) (n : Int) : Except Fault CharArrayPtr :=
  match a with
  | none => .error .segv
  | some xs =>
    if 0 ≤ n ∧ n < (xs.length : Int) then .ok (some (xs.set n.toNat (some s)))
    else .error .segv

/-- The loop `for i, a := range args { C.setArrayString(charArray, C.CString(a), C.int(i)) }`
from index `i` on. -/
def fillCharArray (a : CharArrayPtr) : List GoString → Nat → Except Fault CharArrayPtr
  | [], _ => .ok a
  | s :: rest, i =>
    match setArrayString a (CString s) (cInt i) with
    | .error f => .error f
    | .ok a1 => fillCharArray a1 rest (i + 1)

/-! ## The methods -/

/-- The type `embeddedCreator`, an empty struct. -/
structure embeddedCreator where
deriving DecidableEq, Repr

/-- The function `NewCreator`. -/
def NewCreator : embeddedCreator := {}

/-- The method `embeddedCreator.New`; its receiver is not used and is left
out. -/
def New (ctx : Option Context) (args : List GoString) : embeddedProcess × Option Error :=
  ({ ctx := ctx, args := args, doneCh := none }, none)

/-- The second half of `Start`, from `// Build the conf` on, with the array
`charArray` built and `size = C.int(len(args))`. `setCode` is what
`tor_main_configuration_set_command_line` returns. -/
def startConfigured (e : embeddedProcess) (w : World) (setCode : Int) (size : Int)
    (charArray : CharArrayPtr) : Option Error × embeddedProcess × World :=
  let arr := w.nextArr
  let conf := w.nextConf
  let w1 : World :=
    { w with
      nextArr := arr + 1
      nextConf := conf + 1
      trace := w.trace ++ [.makeCharArray size arr, .confNew conf,
        .setCommandLine conf size charArray setCode] }
  if setCode ≠ 0 then
    (some (.errorf ("Failed to set command line args, code: " ++ toString setCode)),
      e, w1.log [.confFree conf, .freeCharArray arr size])
  else
    let ch := w1.chans.length
    let t := w1.tasks.length
    (none, { e with doneCh := some ch },
      { w1 with
        chans := w1.chans ++ [[]]
        tasks := w1.tasks ++ [{ conf := conf, charArray := arr, size := size, pc := .spawned }]
        trace := w1.trace ++ [.makeChan ch, .go t] })

/-- The bytes of the Go literal `"tor"`. -/
def tor : GoString := [116, 111, 114]

/-- The slice `args := append([]string{"tor"}, e.args...)` of `Start`. -/
def startArgs (e : embeddedProcess) : List GoString := tor :: e.args

/-- The method `embeddedProcess.Start`. `setCode` is what
`tor_main_configuration_set_command_line` returns if it is called. The result
is the returned error, the struct and the world afterwards; `.error` is a
fault in the C helpers. -/
def Start (e : embeddedProcess) (w : World) (setCode : Int) :
    Except Fault (Option Error × embeddedProcess × World) :=
  if e.doneCh ≠ none then
    .ok (some (.errorf "Already started"), e, w)
  else
    match fillCharArray (makeCharArray (cInt (startArgs e).length)) (startArgs e) 0 with
    | .error f => .error f
    | .ok charArray => .ok (startConfigured e w setCode (cInt (startArgs e).length) charArray)

/-- The error `Wait` makes from a completion code. -/
def exitError (code : Int) : Option Error :=
  if code = 0 then none
  else some (.errorf ("Command completed with error exit code: " ++ toString code))

/-- The method `embeddedProcess.Wait`, at one moment of the world. `none`: the
`select` blocks, no case is ready. When both cases are ready Go picks one at
random: `pickCtx` is that pick. -/
def Wait (e : embeddedProcess) (w : World) (pickCtx : Bool) :
    Option (Option Error × embeddedProcess × World) :=
  match e.doneCh with
  | none => some (some (.errorf "Not started"), e, w)
  | some ch =>
    let ctx := e.ctx.getD .background
    match w.ctxErr ctx, w.chans[ch]?.getD [] with
    | none, [] => none
    | some err, [] => some (some (.ofContext err), e, w)
    | none, code :: rest =>
      some (exitError code, e,
        { w with chans := w.chans.set ch rest, trace := w.trace ++ [.recv ch code] })
    | some err, code :: rest =>
      if pickCtx then some (some (.ofContext err), e, w)
      else
        some (exitError code, e,
          { w with chans := w.chans.set ch rest, trace := w.trace ++ [.recv ch code] })

/-- The method `embeddedProcess.EmbeddedControlConn`: a nil connection and
`process.ErrControlConnUnsupported`. -/
def EmbeddedControlConn (_e : embeddedProcess) : Option Unit × Option Error :=
  (none, some .controlConnUnsupported)

/-! ## The goroutine and the interleaving -/

/-- Replace the program counter of goroutine `t`. -/
def World.setPc (w : World) (t : Nat) (pc : Pc) : World :=
  { w with tasks := w.tasks.modify (fun tk => { tk with pc := pc }) t }

/-- One step of goroutine `t`, the closure
`defer C.freeCharArray(...); defer C.tor_main_configuration_free(conf);
e.doneCh <- int(C.tor_run_main(conf))`. `none`: the goroutine cannot move (it
is inside the native call, it is blocked on the send, or it has ended). The
channel is read from the field `e.doneCh` when the goroutine sends: a send on
a nil channel blocks, and so does a send on a full buffer of capacity 1. The
deferred calls run last registered first. -/
def taskStep (e : embeddedProcess) (w : World) (t : Nat) : Option World :=
  match w.tasks[t]? with
  | none => none
  | some tk =>
    match tk.pc with
    | .spawned => some ((w.setPc t .running).log [.runMain tk.conf])
    | .running => none
    | .returned code =>
      match e.doneCh with
      | none => none
      | some ch =>
        match w.chans[ch]? with
        | none => none
        | some buf =>
          if buf.length < 1 then
            some (({ w with chans := w.chans.set ch (buf ++ [code]) }.setPc t .sent).log
              [.send ch code])
          else none
    | .sent => some ((w.setPc t .confFreed).log [.confFree tk.conf])
    | .confFreed => some ((w.setPc t .done).log [.freeCharArray tk.charArray tk.size])
    | .done => none

/-- The native call `tor_run_main` of goroutine `t` returns `code`. -/
def runReturn (w : World) (t : Nat) (code : Int) : Option World :=
  match w.tasks[t]? with
  | none => none
  | some tk =>
    match tk.pc with
    | .running => some ((w.setPc t (.returned code)).log [.runMainRet tk.conf code])
    | _ => none

/-- One process and its world. -/
structure Sys where
  proc : embeddedProcess
  world : World
deriving DecidableEq, Repr

/-- What can happen next: a call of an exported method (with the value the
native configure call returns, or the pick of `select`), the cancellation of a
context, a step of a goroutine, the return of a native run with a code. -/
inductive Action where
  | start (setCode : Int)
  | wait (pickCtx : Bool)
  | controlConn
  | cancel (id : Nat) (err : CtxErr)
  | taskStep (t : Nat)
  | runReturn (t : Nat) (code : Int)
deriving DecidableEq, Repr

/-- One transition. `none`: the action cannot happen now (a blocked `Wait`, a
goroutine that cannot move) or the process faults. A method that returns
records its returned error in the trace. -/
def step (s : Sys) : Action → Option Sys
  | .start setCode =>
    match Start s.proc s.world setCode with
    | .error _ => none
    | .ok (err, e, w) => some { proc := e, world := w.log [.startRet err] }
  | .wait pickCtx =>
    match Wait s.proc s.world pickCtx with
    | none => none
    | some (err, e, w) => some { proc := e, world := w.log [.waitRet err] }
  | .controlConn =>
    some { s with world := s.world.log [.controlConnRet (EmbeddedControlConn s.proc).2] }
  | .cancel id err => some { s with world := s.world.cancel id err }
  | .taskStep t => (taskStep s.proc s.world t).map fun w => { s with world := w }
  | .runReturn t code => (runReturn s.world t code).map fun w => { s with world := w }

/-- A sequence of transitions, `none` as soon as one cannot happen. -/
def run (s : Sys) : List Action → Option Sys
  | [] => some s
  | a :: as =>
    match step s a with
    | none => none
    | some s1 => run s1 as

/-- The world before any call: no channel, no goroutine, an empty trace, and
any set of contexts already cancelled. -/
def World.init (cancelled : List (Nat × CtxErr)) : World :=
  { chans := [], tasks := [], cancelled := cancelled, nextConf := 0, nextArr := 0, trace := [] }

/-- The process returned by `New` in the world before any call. -/
def Sys.init (ctx : Option Context) (args : List GoString) (cancelled : List (Nat × CtxErr)) : Sys :=
  { proc := (New ctx args).1, world := World.init cancelled }

/-- The states the process created by `New ctx args` can reach. -/
def Reachable (ctx : Option Context) (args : List GoString) (cancelled : List (Nat × CtxErr))
    (s : Sys) : Prop :=
  ∃ as, run (Sys.init ctx args cancelled) as = some s

/-! ## Kinds of events -/

/-- Events of the goroutine. -/
def Event.isTask : Event → Bool
  | .runMain _ => true
  | .runMainRet _ _ => true
  | .send _ _ => true
  | .confFree _ => true
  | .freeCharArray _ _ => true
  | _ => false

/-- A receive from a channel. -/
def Event.isRecv : Event → Bool
  | .recv _ _ => true
  | _ => false

/-- A send on a channel. -/
def Event.isSend : Event → Bool
  | .send _ _ => true
  | _ => false

/-- The creation of a channel. -/
def Event.isMakeChan : Event → Bool
  | .makeChan _ => true
  | _ => false

/-- The launch of a goroutine. -/
def Event.isGo : Event → Bool
  | .go _ => true
  | _ => false

/-- A return of `Wait` with nil or with an error made by `fmt.Errorf`, that is,
not with the error of a context. -/
def Event.isResult : Event → Bool
  | .waitRet none => true
  | .waitRet (some (.errorf _)) => true
  | _ => false

/-- What can be recorded while the process is not started: the native calls of
a `Start` whose configure call fails, a `Start` returning an error, a `Wait`
returning "Not started", a call of `EmbeddedControlConn`. -/
def Event.isPre : Event → Bool
  | .makeCharArray _ _ => true
  | .confNew _ => true
  | .setCommandLine _ _ _ _ => true
  | .confFree _ => true
  | .freeCharArray _ _ => true
  | .startRet (some _) => true
  | .waitRet (some (.errorf m)) => m == "Not started"
  | .controlConnRet _ => true
  | _ => false

/-- What can be recorded once the process is started: the events of the
goroutine, a receive, and the returns of the methods (`Start` with an error). -/
def Event.isPost : Event → Bool
  | .runMain _ => true
  | .runMainRet _ _ => true
  | .send _ _ => true
  | .confFree _ => true
  | .freeCharArray _ _ => true
  | .recv _ _ => true
  | .startRet (some _) => true
  | .waitRet _ => true
  | .controlConnRet _ => true
  | _ => false

/-! ## The goroutine in the trace -/

/-- How far the goroutine is. -/
def Pc.progress : Pc → Nat
  | .spawned => 0
  | .running => 1
  | .returned _ => 2
  | .sent => 3
  | .confFreed => 4
  | .done => 5

/-- The events of the goroutine in the order of its code, when the native run
returns `c`: the call, its return, the send, and the two deferred calls, last
registered first. -/
def taskEvents (conf arr : Nat) (size : Int) (c : Int) : List Event :=
  [.runMain conf, .runMainRet conf c, .send 0 c, .confFree conf, .freeCharArray arr size]

/-- What `Start` records when the configure call returns 0. -/
def startEvents (conf arr : Nat) (size : Int) (argv : CharArrayPtr) : List Event :=
  [.makeCharArray size arr, .confNew conf, .setCommandLine conf size argv 0, .makeChan 0, .go 0,
   .startRet none]

/-! ## The two phases of a process -/

/-- The process is not started: no channel, no goroutine, and a trace of
events of that phase only. -/
def Unstarted (s : Sys) : Prop :=
  s.proc.doneCh = none ∧ s.world.chans = [] ∧ s.world.tasks = [] ∧
    ∀ ev ∈ s.world.trace, ev.isPre = true

/-- The process was started when the trace was `T`, with configuration `conf`
and array `arr` of `size` slots: one channel, one goroutine; `ext` is what has
been recorded since, `c` the code of the native run once it has returned. -/
def Started (T : List Event) (conf arr : Nat) (size : Int) (s : Sys) : Prop :=
  s.proc.doneCh = some 0 ∧ ∃ (pc : Pc) (buf : List Int) (ext : List Event) (c : Int),
    s.world.tasks = [{ conf := conf, charArray := arr, size := size, pc := pc }] ∧
    s.world.chans = [buf] ∧
    s.world.trace = T ++ ext ∧
    (∀ ev ∈ ext, ev.isPost = true) ∧
    ext.filter Event.isTask = (taskEvents conf arr size c).take pc.progress ∧
    (∀ c1, pc = .returned c1 → c1 = c) ∧
    ((pc.progress < 3 ∧ buf = [] ∧ ext.filter Event.isRecv = []) ∨
     (3 ≤ pc.progress ∧ buf = [c] ∧ ext.filter Event.isRecv = []) ∨
     (3 ≤ pc.progress ∧ buf = [] ∧ ext.filter Event.isRecv = [.recv 0 c])) ∧
    ext.filter Event.isResult = (ext.filter Event.isRecv).map fun _ => .waitRet (exitError c)

/-- The invariant of every reachable state: not started, or started after a
phase `pre` in which it was not. -/
def Inv (s : Sys) : Prop :=
  Unstarted s ∨ ∃ (pre : List Event) (conf arr : Nat) (size : Int) (argv : CharArrayPtr),
    (∀ ev ∈ pre, ev.isPre = true) ∧
    Started (pre ++ startEvents conf arr size argv) conf arr size s

/-- What a transition leaves alone and what it records. -/
def Frame (s s1 : Sys) (evs : List Event) : Prop :=
  s1.proc = s.proc ∧ s1.world.cancelled = s.world.cancelled ∧
    s1.world.nextConf = s.world.nextConf ∧ s1.world.nextArr = s.world.nextArr ∧
    s1.world.trace = s.world.trace ++ evs

/-- The actions that take the goroutine from `pc` to its end, when the native
run, if it has not returned yet, returns `c`. -/
def remaining : Pc → Int → List Action
  | .spawned, c => [.taskStep 0, .runReturn 0 c, .taskStep 0, .taskStep 0, .taskStep 0]
  | .running, c => [.runReturn 0 c, .taskStep 0, .taskStep 0, .taskStep 0]
  | .returned _, _ => [.taskStep 0, .taskStep 0, .taskStep 0]
  | .sent, _ => [.taskStep 0, .taskStep 0]
  | .confFreed, _ => [.taskStep 0]
  | .done, _ => []

/-- The code the native run has returned, or `c` when it has not returned yet. -/
def Pc.code : Pc → Int → Int
  | .returned c1, _ => c1
  | _, c => c

/-- The message begins with the text `Wait` puts before a completion code. -/
def isExitMessage (m : String) : Bool :=
  "Command completed with error exit code: ".data.isPrefixOf m.data

/-- A return of `Start` with a nil error. -/
def Event.isStartOk : Event → Bool
  | .startRet none => true
  | _ => false

/-- A return of `Wait` with a completion result: nil, or an error made by
`fmt.Errorf` whose message begins "Command completed with error exit code: ". -/
def Event.isCompletion : Event → Bool
  | .waitRet none => true
  | .waitRet (some (.errorf m)) => isExitMessage m
  | _ => false

/-! ## Concrete states -/

/-- A state of the process `New(nil, "a")` (the byte 97)
after `Start` returned nil and the
goroutine entered the native run. -/
def demoRunning : Sys :=
  { proc := { ctx := none, args := [[97]], doneCh := some 0 }
    world :=
      { chans := [[]]
        tasks := [{ conf := 0, charArray := 0, size := 2, pc := .running }]
        cancelled := []
        nextConf := 1
        nextArr := 1
        trace := [.makeCharArray 2 0, .confNew 0,
          .setCommandLine 0 2 (some [some tor, some [97]]) 0, .makeChan 0, .go 0,
          .startRet none, .runMain 0] } }

/-- A state of the process `New(ctx, "a")` (the byte 97)
after `Start` returned nil, the
goroutine entered the native run and `ctx` passed its deadline. -/
def demoCancelled : Sys :=
  { proc := { ctx := some (.user 7), args := [[97]], doneCh := some 0 }
    world :=
      { chans := [[]]
        tasks := [{ conf := 0, charArray := 0, size := 2, pc := .running }]
        cancelled := [(7, .deadlineExceeded)]
        nextConf := 1
        nextArr := 1
        trace := [.makeCharArray 2 0, .confNew 0,
          .setCommandLine 0 2 (some [some tor, some [97]]) 0, .makeChan 0, .go 0,
          .startRet none, .runMain 0] } }

/-- A state of the process `New(nil, "a")` (the byte 97)
in which the native run has
returned 3 and the goroutine is about to send. -/
def demoReturned : Sys :=
  { proc := { ctx := none, args := [[97]], doneCh := some 0 }
    world :=
      { chans := [[]]
        tasks := [{ conf := 0, charArray := 0, size := 2, pc := .returned 3 }]
        cancelled := []
        nextConf := 1
        nextArr := 1
        trace := [.makeCharArray 2 0, .confNew 0,
          .setCommandLine 0 2 (some [some tor, some [97]]) 0, .makeChan 0, .go 0,
          .startRet none, .runMain 0, .runMainRet 0 3] } }

/-- A state of the process `New(nil, "a")` (the byte 97)
after a `Wait` has received the
completion code 3. -/
def demoWaited : Sys :=
  { proc := { ctx := none, args := [[97]], doneCh := some 0 }
    world :=
      { chans := [[]]
        tasks := [{ conf := 0, charArray := 0, size := 2, pc := .sent }]
        cancelled := []
        nextConf := 1
        nextArr := 1
        trace := [.makeCharArray 2 0, .confNew 0,
          .setCommandLine 0 2 (some [some tor, some [97]]) 0, .makeChan 0, .go 0,
          .startRet none, .runMain 0, .runMainRet 0 3, .send 0 3, .recv 0 3,
          .waitRet (some (.errorf "Command completed with error exit code: 3"))] } }

/-! ## Building the argument vector -/

theorem cInt_of_fits (n : Int) (h0 : 0 ≤ n) (h1 : n < 2147483648) : cInt n = n := by
  unfold cInt
  omega

theorem fillCharArray_null (s : GoString) (rest : List GoString) (i : Nat) :
    fillCharArray none (s :: rest) i = .error .segv := by
  simp [fillCharArray, setArrayString]

theorem take_succ_set {α : Type} (xs : List α) (i : Nat) (a : α) (h : i < xs.length) :
    (xs.set i a).take (i + 1) = xs.take i ++ [a] := by
  induction xs generalizing i with
  | nil => simp at h
  | cons x xs ih =>
    cases i with
    | zero => simp
    | succ j => simp at h; simp [ih j h]

theorem drop_set_lt {α : Type} (xs : List α) (i n : Nat) (a : α) (h : i < n) :
    (xs.set i a).drop n = xs.drop n := by
  induction xs generalizing i n with
  | nil => simp
  | cons x xs ih =>
    cases n with
    | zero => omega
    | succ m =>
      cases i with
      | zero => simp
      | succ j => simp; exact ih j m (by omega)

/-- Filling `l` into an array from slot `i` on, when the slots exist and the
indices fit a C `int`. -/
theorem fillCharArray_ok (l : List GoString) :
    ∀ (xs : CharArray) (i : Nat), i + l.length ≤ xs.length → xs.length < 2147483648 →
      fillCharArray (some xs) l i
        = .ok (some (xs.take i ++ cStrings l ++ xs.drop (i + l.length))) := by
  induction l with
  | nil => intro xs i _ _; simp [fillCharArray, cStrings]
  | cons s rest ih =>
    intro xs i hlen hfit
    simp only [List.length_cons] at hlen
    have hc : cInt (i : Int) = (i : Int) := cInt_of_fits _ (by omega) (by omega)
    have hlt : i < xs.length := by omega
    have hcond : (0 : Int) ≤ (i : Int) ∧ (i : Int) < (xs.length : Int) := by omega
    have hs : (xs.set i (some (CString s))).length = xs.length := List.length_set ..
    have ih1 := ih (xs.set i (some (CString s))) (i + 1) (by rw [hs]; omega)
      (by rw [hs]; exact hfit)
    have hset : setArrayString (some xs) (CString s) (cInt i)
        = .ok (some (xs.set i (some (CString s)))) := by
      rw [hc]
      show (if 0 ≤ (i : Int) ∧ (i : Int) < (xs.length : Int) then
        Except.ok (some (xs.set (i : Int).toNat (some (CString s))))
        else Except.error Fault.segv) = _
      rw [if_pos hcond, Int.toNat_ofNat]
    rw [fillCharArray.eq_2, hset]
    show fillCharArray (some (xs.set i (some (CString s)))) rest (i + 1) = _
    rw [ih1]
    rw [take_succ_set xs i (some (CString s)) hlt,
      drop_set_lt xs i (i + 1 + rest.length) (some (CString s)) (by omega)]
    have e1 : i + 1 + rest.length = i + (rest.length + 1) := by omega
    rw [e1]
    simp only [cStrings, List.map_cons, List.length_cons, List.append_assoc,
      List.singleton_append]

/-- The array `Start` builds for `args`: every slot written, in order. -/
theorem fillCharArray_fresh (l : List GoString) (h : l.length < 2147483648) :
    fillCharArray (makeCharArray (cInt l.length)) l 0 = .ok (some (cStrings l)) := by
  have hc : cInt (l.length : Int) = (l.length : Int) := cInt_of_fits _ (by omega) (by omega)
  have hneg : ¬ ((l.length : Int) < 0) := by omega
  have hm : makeCharArray (cInt l.length) = some (List.replicate l.length none) := by
    rw [hc]
    show (if (l.length : Int) < 0 then none
      else some (List.replicate (l.length : Int).toNat none)) = _
    rw [if_neg hneg, Int.toNat_ofNat]
  have hl : (List.replicate l.length (none : Option CStr)).length = l.length :=
    List.length_replicate ..
  rw [hm, fillCharArray_ok l _ 0 (by rw [hl]; omega) (by rw [hl]; exact h)]
  have hd : List.drop (0 + l.length) (List.replicate l.length (none : Option CStr)) = [] := by
    apply List.drop_eq_nil_of_le
    rw [hl]; omega
  rw [hd]
  simp only [List.take_zero, List.nil_append, List.append_nil]

/-! ## What one call of `Start` does -/

theorem Start_started (e : embeddedProcess) (w : World) (k : Int) (h : e.doneCh ≠ none) :
    Start e w k = .ok (some (.errorf "Already started"), e, w) := by
  unfold Start
  rw [if_pos h]

theorem startArgs_length (e : embeddedProcess) : (startArgs e).length = e.args.length + 1 :=
  List.length_cons ..

/-- An unstarted process whose argument count fits a C `int`: `Start` reaches
the native configure call with the vector `"tor", args...`. -/
theorem Start_unstarted (e : embeddedProcess) (w : World) (k : Int) (h : e.doneCh = none)
    (hfit : e.args.length + 1 < 2147483648) :
    Start e w k = .ok (startConfigured e w k (e.args.length + 1)
      (some (some tor :: cStrings e.args))) := by
  have hn : ¬ (e.doneCh ≠ none) := by simp [h]
  have hl : (startArgs e).length < 2147483648 := by rw [startArgs_length]; exact hfit
  have hc : cInt ((startArgs e).length : Int) = (e.args.length : Int) + 1 := by
    rw [cInt_of_fits _ (by omega) (by omega), startArgs_length]; push_cast; rfl
  have h2 := fillCharArray_fresh (startArgs e) hl
  have h3 : cStrings (startArgs e) = some tor :: cStrings e.args := rfl
  unfold Start
  rw [if_neg hn, h2, hc, h3]

/-- An unstarted process: `Start` faults in the C helpers or runs its second
half with some array. -/
theorem Start_unstarted_cases (e : embeddedProcess) (w : World) (k : Int) (h : e.doneCh = none) :
    (∃ f, Start e w k = .error f) ∨
      ∃ size charArray, Start e w k = .ok (startConfigured e w k size charArray) := by
  have hn : ¬ (e.doneCh ≠ none) := by simp [h]
  unfold Start
  rw [if_neg hn]
  generalize fillCharArray (makeCharArray (cInt (startArgs e).length)) (startArgs e) 0 = r
  cases r with
  | error f => exact Or.inl ⟨f, rfl⟩
  | ok ca => exact Or.inr ⟨_, ca, rfl⟩

/-! ## What one call of `Wait` does -/

theorem Wait_not_started (e : embeddedProcess) (w : World) (pick : Bool) (h : e.doneCh = none) :
    Wait e w pick = some (some (.errorf "Not started"), e, w) := by
  unfold Wait
  rw [h]

/-- A started process whose context is not cancelled and whose channel holds
`code`: `Wait` receives it. -/
theorem Wait_receives (e : embeddedProcess) (w : World) (pick : Bool) (ch : Nat) (code : Int)
    (rest : List Int) (h : e.doneCh = some ch) (hbuf : w.chans[ch]?.getD [] = code :: rest)
    (hctx : w.ctxErr (e.ctx.getD .background) = none) :
    Wait e w pick = some (exitError code, e,
      { w with chans := w.chans.set ch rest, trace := w.trace ++ [.recv ch code] }) := by
  unfold Wait
  rw [h]
  simp only [hctx, hbuf]

/-- A started process whose context is cancelled and whose channel is empty:
`Wait` returns the error of the context. -/
theorem Wait_cancelled (e : embeddedProcess) (w : World) (pick : Bool) (ch : Nat) (err : CtxErr)
    (h : e.doneCh = some ch) (hbuf : w.chans[ch]?.getD [] = [])
    (hctx : w.ctxErr (e.ctx.getD .background) = some err) :
    Wait e w pick = some (some (.ofContext err), e, w) := by
  unfold Wait
  rw [h]
  simp only [hctx, hbuf]

/-- A started process whose context is not cancelled and whose channel is
empty: `Wait` blocks. -/
theorem Wait_blocks (e : embeddedProcess) (w : World) (pick : Bool) (ch : Nat)
    (h : e.doneCh = some ch) (hbuf : w.chans[ch]?.getD [] = [])
    (hctx : w.ctxErr (e.ctx.getD .background) = none) :
    Wait e w pick = none := by
  unfold Wait
  rw [h]
  simp only [hctx, hbuf]

/-- Every way `Wait` can return on a started process: the error of the
context with nothing changed, or the code received from the channel. -/
theorem Wait_started_cases (e : embeddedProcess) (w : World) (pick : Bool) (ch : Nat)
    (h : e.doneCh = some ch) (r : Option Error × embeddedProcess × World)
    (hr : Wait e w pick = some r) :
    (∃ err, w.ctxErr (e.ctx.getD .background) = some err ∧ r = (some (.ofContext err), e, w)) ∨
    (∃ code rest, w.chans[ch]?.getD [] = code :: rest ∧
      r = (exitError code, e,
        { w with chans := w.chans.set ch rest, trace := w.trace ++ [.recv ch code] })) := by
  unfold Wait at hr
  rw [h] at hr
  simp only [] at hr
  cases hc : w.ctxErr (e.ctx.getD .background) with
  | none =>
    cases hb : w.chans[ch]?.getD [] with
    | nil => simp [hc, hb] at hr
    | cons code rest =>
      simp only [hc, hb, Option.some.injEq] at hr
      exact Or.inr ⟨code, rest, rfl, hr.symm⟩
  | some err =>
    cases hb : w.chans[ch]?.getD [] with
    | nil =>
      simp only [hc, hb, Option.some.injEq] at hr
      exact Or.inl ⟨err, rfl, hr.symm⟩
    | cons code rest =>
      simp only [hc, hb] at hr
      cases pick with
      | true =>
        simp only [if_true, Option.some.injEq] at hr
        exact Or.inl ⟨err, rfl, hr.symm⟩
      | false =>
        simp only [Bool.false_eq_true, if_false, Option.some.injEq] at hr
        exact Or.inr ⟨code, rest, rfl, hr.symm⟩

/-! ## Claims about single calls -/

/-- C1: on a process that has been started (`doneCh` is not nil) `Start`
returns the error "Already started" and leaves the struct and the whole world
as they are: the trace gets no native call, no array or configuration is
allocated, no goroutine and no channel is added. -/
theorem start_twice_rejected (e : embeddedProcess) (w : World) (k : Int)
    (h : e.doneCh ≠ none) :
    Start e w k = .ok (some (.errorf "Already started"), e, w) :=
  Start_started e w k h

theorem start_twice_rejected_witness :
    Start { ctx := none, args := [[97]], doneCh := some 0 } (World.init []) 5
      = .ok (some (.errorf "Already started"),
          { ctx := none, args := [[97]], doneCh := some 0 }, World.init []) :=
  start_twice_rejected _ _ _ (by decide)

/-- C2: `New` returns a process with the given context and arguments, a nil
channel and a nil error; `Wait` on a process with a nil channel (so on the one
`New` returns) returns the error "Not started" in every world, whatever the
context and whether or not it is cancelled, never blocks, and changes nothing. -/
theorem wait_before_start (ctx : Option Context) (args : List GoString) (e : embeddedProcess)
    (w : World) (pick : Bool) (h : e.doneCh = none) :
    New ctx args = ({ ctx := ctx, args := args, doneCh := none }, none) ∧
    Wait (New ctx args).1 w pick = some (some (.errorf "Not started"), (New ctx args).1, w) ∧
    Wait e w pick = some (some (.errorf "Not started"), e, w) :=
  ⟨rfl, Wait_not_started _ w pick rfl, Wait_not_started e w pick h⟩

theorem wait_before_start_witness :
    New (some (.user 1)) [[97]] = ({ ctx := some (.user 1), args := [[97]], doneCh := none }, none) ∧
    Wait (New (some (.user 1)) [[97]]).1 (World.init [(1, .canceled)]) true
      = some (some (.errorf "Not started"), (New (some (.user 1)) [[97]]).1,
          World.init [(1, .canceled)]) ∧
    Wait { ctx := none, args := [], doneCh := none } (World.init [(1, .canceled)]) true
      = some (some (.errorf "Not started"), { ctx := none, args := [], doneCh := none },
          World.init [(1, .canceled)]) :=
  wait_before_start (some (.user 1)) [[97]] { ctx := none, args := [], doneCh := none }
    (World.init [(1, .canceled)]) true rfl

/-! ## Invariants of the interleaving -/

theorem exitError_isResult (c : Int) : (Event.waitRet (exitError c)).isResult = true := by
  unfold exitError
  split <;> rfl

theorem step_start_started (s : Sys) (k : Int) (h : s.proc.doneCh ≠ none) :
    step s (.start k)
      = some { s with world := s.world.log [.startRet (some (.errorf "Already started"))] } := by
  simp only [step, Start_started s.proc s.world k h]

theorem filter_eq_nil_of {α : Type} (p q : α → Bool) (l : List α)
    (h : ∀ x ∈ l, q x = true) (hpq : ∀ x, q x = true → p x = false) : l.filter p = [] := by
  rw [List.filter_eq_nil_iff]
  intro x hx
  simp [hpq x (h x hx)]

theorem Started_step (T : List Event) (conf arr : Nat) (size : Int) (s s1 : Sys) (a : Action)
    (h : Started T conf arr size s) (hs : step s a = some s1) : Started T conf arr size s1 := by
  obtain ⟨hd, pc, buf, ext, c, ht, hc, htr, hpost, htask, hret, hbuf, hres⟩ := h
  rcases s with ⟨⟨ctx0, args0, dch⟩, ⟨chans, tasks, cancelled, nc, na, trace⟩⟩
  simp only at hd ht hc htr
  subst hd ht hc htr
  cases a with
  | start k =>
    rw [step_start_started _ _ (by simp)] at hs
    simp only [Option.some.injEq] at hs
    subst hs
    refine ⟨rfl, pc, buf, ext ++ [.startRet (some (.errorf "Already started"))], c, rfl, rfl, ?_, ?_, ?_,
      hret, ?_, ?_⟩
    · simp [World.log]
    · intro ev hev
      rcases List.mem_append.1 hev with h1 | h1
      · exact hpost ev h1
      · simp at h1; subst h1; rfl
    · simp [List.filter_append, htask, Event.isTask]
    · simpa [List.filter_append, Event.isRecv] using hbuf
    · simp [List.filter_append, hres, Event.isResult, Event.isRecv]
  | controlConn =>
    simp only [step, Option.some.injEq] at hs
    subst hs
    refine ⟨rfl, pc, buf, ext ++ [.controlConnRet (some .controlConnUnsupported)], c, rfl, rfl, ?_, ?_, ?_,
      hret, ?_, ?_⟩
    · simp [World.log, EmbeddedControlConn]
    · intro ev hev
      rcases List.mem_append.1 hev with h1 | h1
      · exact hpost ev h1
      · simp at h1; subst h1; rfl
    · simp [List.filter_append, htask, Event.isTask]
    · simpa [List.filter_append, Event.isRecv] using hbuf
    · simp [List.filter_append, hres, Event.isResult, Event.isRecv]
  | cancel id err =>
    simp only [step, Option.some.injEq] at hs
    subst hs
    refine ⟨rfl, pc, buf, ext, c, ?_, ?_, ?_, hpost, htask, hret, hbuf, hres⟩
    · simp only [World.cancel]; split <;> rfl
    · simp only [World.cancel]; split <;> rfl
    · simp only [World.cancel]; split <;> rfl
  | wait pick =>
    simp only [step] at hs
    cases hw : Wait { ctx := ctx0, args := args0, doneCh := some 0 }
        { chans := [buf], tasks := [{ conf := conf, charArray := arr, size := size, pc := pc }],
          cancelled := cancelled, nextConf := nc, nextArr := na, trace := T ++ ext } pick with
    | none => rw [hw] at hs; simp at hs
    | some r =>
      rw [hw] at hs
      simp only [Option.some.injEq] at hs
      subst hs
      rcases Wait_started_cases _ _ _ 0 rfl r hw with ⟨err, -, rfl⟩ | ⟨code, rest, hb, rfl⟩
      · refine ⟨rfl, pc, buf, ext ++ [.waitRet (some (.ofContext err))], c, rfl, rfl, ?_, ?_, ?_,
          hret, ?_, ?_⟩
        · simp [World.log]
        · intro ev hev
          rcases List.mem_append.1 hev with h1 | h1
          · exact hpost ev h1
          · simp at h1; subst h1; rfl
        · simp [List.filter_append, htask, Event.isTask]
        · simpa [List.filter_append, Event.isRecv] using hbuf
        · simp [List.filter_append, hres, Event.isResult, Event.isRecv]
      · simp only [List.getElem?_cons_zero, Option.getD_some] at hb
        subst hb
        rcases hbuf with ⟨-, hb1, -⟩ | ⟨hp, hb1, hr1⟩ | ⟨-, hb1, -⟩
        · simp at hb1
        · simp only [List.cons.injEq] at hb1
          obtain ⟨rfl, rfl⟩ := hb1
          refine ⟨rfl, pc, [], ext ++ [.recv 0 code, .waitRet (exitError code)], code, rfl, ?_, ?_,
            ?_, ?_, hret, ?_, ?_⟩
          · simp [World.log]
          · simp [World.log]
          · intro ev hev
            rcases List.mem_append.1 hev with h1 | h1
            · exact hpost ev h1
            · simp at h1; rcases h1 with rfl | rfl <;> rfl
          · simp [List.filter_append, htask, Event.isTask]
          · right; right
            simp [List.filter_append, hr1, Event.isRecv, hp]
          · simp only [List.filter_append, hres, hr1, List.filter_cons, List.filter_nil,
              exitError_isResult, if_true]
            simp [Event.isResult, Event.isRecv]
        · simp at hb1
  | taskStep t =>
    simp only [step, Option.map_eq_some'] at hs
    obtain ⟨w1, hw1, rfl⟩ := hs
    cases t with
    | succ n => simp [taskStep] at hw1
    | zero =>
      cases pc with
      | spawned =>
        simp only [taskStep, List.getElem?_cons_zero, Option.some.injEq] at hw1
        subst hw1
        refine ⟨rfl, .running, buf, ext ++ [.runMain conf], c, ?_, ?_, ?_, ?_, ?_, ?_, ?_, ?_⟩
        · simp [World.log, World.setPc]
        · simp [World.log, World.setPc]
        · simp [World.log, World.setPc]
        · intro ev hev
          rcases List.mem_append.1 hev with h1 | h1
          · exact hpost ev h1
          · simp at h1; subst h1; rfl
        · simp [List.filter_append, htask, Event.isTask, Pc.progress, taskEvents]
        · intro c1 h1; cases h1
        · simpa [List.filter_append, Event.isRecv, Pc.progress] using hbuf
        · simp [List.filter_append, hres, Event.isResult, Event.isRecv]
      | running => simp [taskStep] at hw1
      | returned c1 =>
        have hc1 := hret c1 rfl
        subst hc1
        rcases hbuf with ⟨-, hb1, hr1⟩ | ⟨hp, -, -⟩ | ⟨hp, -, -⟩
        · subst hb1
          simp only [taskStep, List.getElem?_cons_zero, List.length_nil, Nat.lt_one_iff,
            if_true, Option.some.injEq] at hw1
          subst hw1
          refine ⟨rfl, .sent, [c1], ext ++ [.send 0 c1], c1, ?_, ?_, ?_, ?_, ?_, ?_, ?_, ?_⟩
          · simp [World.log, World.setPc]
          · simp [World.log, World.setPc]
          · simp [World.log, World.setPc]
          · intro ev hev
            rcases List.mem_append.1 hev with h1 | h1
            · exact hpost ev h1
            · simp at h1; subst h1; rfl
          · simp [List.filter_append, htask, Event.isTask, Pc.progress, taskEvents]
          · intro c2 h1; cases h1
          · right; left
            simp [List.filter_append, Event.isRecv, Pc.progress, hr1]
          · simp [List.filter_append, hres, Event.isResult, Event.isRecv]
        · simp [Pc.progress] at hp
        · simp [Pc.progress] at hp
      | sent =>
        simp only [taskStep, List.getElem?_cons_zero, Option.some.injEq] at hw1
        subst hw1
        refine ⟨rfl, .confFreed, buf, ext ++ [.confFree conf], c, ?_, ?_, ?_, ?_, ?_, ?_, ?_, ?_⟩
        · simp [World.log, World.setPc]
        · simp [World.log, World.setPc]
        · simp [World.log, World.setPc]
        · intro ev hev
          rcases List.mem_append.1 hev with h1 | h1
          · exact hpost ev h1
          · simp at h1; subst h1; rfl
        · simp [List.filter_append, htask, Event.isTask, Pc.progress, taskEvents]
        · intro c1 h1; cases h1
        · simpa [List.filter_append, Event.isRecv, Pc.progress] using hbuf
        · simp [List.filter_append, hres, Event.isResult, Event.isRecv]
      | confFreed =>
        simp only [taskStep, List.getElem?_cons_zero, Option.some.injEq] at hw1
        subst hw1
        refine ⟨rfl, .done, buf, ext ++ [.freeCharArray arr size], c, ?_, ?_, ?_, ?_, ?_, ?_, ?_, ?_⟩
        · simp [World.log, World.setPc]
        · simp [World.log, World.setPc]
        · simp [World.log, World.setPc]
        · intro ev hev
          rcases List.mem_append.1 hev with h1 | h1
          · exact hpost ev h1
          · simp at h1; subst h1; rfl
        · simp [List.filter_append, htask, Event.isTask, Pc.progress, taskEvents]
        · intro c1 h1; cases h1
        · simpa [List.filter_append, Event.isRecv, Pc.progress] using hbuf
        · simp [List.filter_append, hres, Event.isResult, Event.isRecv]
      | done => simp [taskStep] at hw1
  | runReturn t c1 =>
    simp only [step, Option.map_eq_some'] at hs
    obtain ⟨w1, hw1, rfl⟩ := hs
    cases t with
    | succ n => simp [runReturn] at hw1
    | zero =>
      cases pc with
      | running =>
        simp only [runReturn, List.getElem?_cons_zero, Option.some.injEq] at hw1
        subst hw1
        refine ⟨rfl, .returned c1, buf, ext ++ [.runMainRet conf c1], c1, ?_, ?_, ?_, ?_, ?_, ?_, ?_, ?_⟩
        · simp [World.log, World.setPc]
        · simp [World.log, World.setPc]
        · simp [World.log, World.setPc]
        · intro ev hev
          rcases List.mem_append.1 hev with h1 | h1
          · exact hpost ev h1
          · simp at h1; subst h1; rfl
        · simp [Pc.progress, taskEvents] at htask
          simp [List.filter_append, htask, Event.isTask, Pc.progress, taskEvents]
        · intro c2 h1; cases h1; rfl
        · rcases hbuf with ⟨-, hb1, hr1⟩ | ⟨hp, -, -⟩ | ⟨hp, -, -⟩
          · left; simp [List.filter_append, Event.isRecv, Pc.progress, hb1, hr1]
          · simp [Pc.progress] at hp
          · simp [Pc.progress] at hp
        · rcases hbuf with ⟨-, hb1, hr1⟩ | ⟨hp, -, -⟩ | ⟨hp, -, -⟩
          · rw [hr1, List.map_nil] at hres
            rw [List.filter_append, List.filter_append, hres, hr1]
            rfl
          · simp [Pc.progress] at hp
          · simp [Pc.progress] at hp
      | _ => simp [runReturn] at hw1

theorem step_wait_unstarted (s : Sys) (pick : Bool) (h : s.proc.doneCh = none) :
    step s (.wait pick)
      = some { s with world := s.world.log [.waitRet (some (.errorf "Not started"))] } := by
  simp only [step, Wait_not_started s.proc s.world pick h]

theorem step_start_unstarted (s s1 : Sys) (k : Int) (h : s.proc.doneCh = none)
    (hs : step s (.start k) = some s1) :
    ∃ size argv, s1 =
      { proc := (startConfigured s.proc s.world k size argv).2.1
        world := (startConfigured s.proc s.world k size argv).2.2.log
          [.startRet (startConfigured s.proc s.world k size argv).1] } := by
  rcases Start_unstarted_cases s.proc s.world k h with ⟨f, hf⟩ | ⟨size, argv, hok⟩
  · simp [step, hf] at hs
  · simp only [step, hok, Option.some.injEq] at hs
    exact ⟨size, argv, hs.symm⟩

theorem Unstarted_step (s s1 : Sys) (a : Action) (h : Unstarted s) (hs : step s a = some s1) :
    Unstarted s1 ∨ ∃ (conf arr : Nat) (size : Int) (argv : CharArrayPtr),
      Started (s.world.trace ++ startEvents conf arr size argv) conf arr size s1 := by
  obtain ⟨hd, hc, ht, hpre⟩ := h
  cases a with
  | start k =>
    obtain ⟨size, argv, rfl⟩ := step_start_unstarted s s1 k hd hs
    by_cases hk : k = 0
    · subst hk
      right
      refine ⟨s.world.nextConf, s.world.nextArr, size, argv, ?_, .spawned, [], [], 0, ?_, ?_, ?_, ?_, ?_,
        ?_, ?_, ?_⟩
      · simp [startConfigured, hc]
      · simp [startConfigured, World.log, ht]
      · simp [startConfigured, World.log, hc]
      · simp [startConfigured, World.log, startEvents, hc, ht]
      · simp
      · simp [Pc.progress]
      · intro c1 h1; cases h1
      · left; simp [Pc.progress]
      · simp
    · left
      refine ⟨?_, ?_, ?_, ?_⟩
      · simp [startConfigured, hk, hd]
      · simp [startConfigured, hk, World.log, hc]
      · simp [startConfigured, hk, World.log, ht]
      · intro ev hev
        have htr : ∃ l : List Event, (∀ x ∈ l, x.isPre = true) ∧
            ((startConfigured s.proc s.world k size argv).2.2.log
              [.startRet (startConfigured s.proc s.world k size argv).1]).trace
              = s.world.trace ++ l := by
          refine ⟨[.makeCharArray size s.world.nextArr, .confNew s.world.nextConf,
            .setCommandLine s.world.nextConf size argv k, .confFree s.world.nextConf,
            .freeCharArray s.world.nextArr size,
            .startRet (some (.errorf ("Failed to set command line args, code: " ++ toString k)))],
            ?_, ?_⟩
          · intro x hx
            simp only [List.mem_cons, List.mem_singleton, List.not_mem_nil, or_false] at hx
            rcases hx with rfl | rfl | rfl | rfl | rfl | rfl <;> rfl
          · simp [startConfigured, hk, World.log]
        obtain ⟨l, hl, htr⟩ := htr
        rw [htr] at hev
        rcases List.mem_append.1 hev with h1 | h1
        · exact hpre ev h1
        · exact hl ev h1
  | wait pick =>
    rw [step_wait_unstarted s pick hd, Option.some.injEq] at hs
    subst hs
    left
    refine ⟨hd, hc, ht, ?_⟩
    intro ev hev
    simp only [World.log, List.mem_append] at hev
    rcases hev with h1 | h1
    · exact hpre ev h1
    · simp at h1; subst h1; rfl
  | controlConn =>
    simp only [step, Option.some.injEq] at hs
    subst hs
    left
    refine ⟨hd, hc, ht, ?_⟩
    intro ev hev
    simp only [World.log, List.mem_append] at hev
    rcases hev with h1 | h1
    · exact hpre ev h1
    · simp at h1; subst h1; rfl
  | cancel id err =>
    simp only [step, Option.some.injEq] at hs
    subst hs
    left
    refine ⟨hd, ?_, ?_, ?_⟩
    · simp only [World.cancel]; split <;> exact hc
    · simp only [World.cancel]; split <;> exact ht
    · simp only [World.cancel]; split <;> exact hpre
  | taskStep t => simp [step, taskStep, ht] at hs
  | runReturn t c => simp [step, runReturn, ht] at hs

theorem Inv_step (s s1 : Sys) (a : Action) (h : Inv s) (hs : step s a = some s1) : Inv s1 := by
  rcases h with h | ⟨pre, conf, arr, size, argv, hpre, h⟩
  · rcases Unstarted_step s s1 a h hs with h1 | ⟨conf, arr, size, argv, h1⟩
    · exact Or.inl h1
    · exact Or.inr ⟨s.world.trace, conf, arr, size, argv, h.2.2.2, h1⟩
  · exact Or.inr ⟨pre, conf, arr, size, argv, hpre, Started_step _ _ _ _ s s1 a h hs⟩

theorem Inv_run (as : List Action) : ∀ (s s1 : Sys), Inv s → run s as = some s1 → Inv s1 := by
  induction as with
  | nil => intro s s1 h hs; simp only [run, Option.some.injEq] at hs; subst hs; exact h
  | cons a as ih =>
    intro s s1 h hs
    simp only [run] at hs
    cases hst : step s a with
    | none => rw [hst] at hs; simp at hs
    | some s2 => rw [hst] at hs; exact ih s2 s1 (Inv_step s s2 a h hst) hs

theorem Started_run (T : List Event) (conf arr : Nat) (size : Int) (as : List Action) :
    ∀ (s s1 : Sys), Started T conf arr size s → run s as = some s1 → Started T conf arr size s1 := by
  induction as with
  | nil => intro s s1 h hs; simp only [run, Option.some.injEq] at hs; subst hs; exact h
  | cons a as ih =>
    intro s s1 h hs
    simp only [run] at hs
    cases hst : step s a with
    | none => rw [hst] at hs; simp at hs
    | some s2 => rw [hst] at hs; exact ih s2 s1 (Started_step _ _ _ _ s s2 a h hst) hs

theorem Inv_init (ctx : Option Context) (args : List GoString) (cancelled : List (Nat × CtxErr)) :
    Inv (Sys.init ctx args cancelled) :=
  Or.inl ⟨rfl, rfl, rfl, by simp [Sys.init, World.init]⟩

theorem Inv_of_reachable (ctx : Option Context) (args : List GoString)
    (cancelled : List (Nat × CtxErr)) (s : Sys) (h : Reachable ctx args cancelled s) : Inv s := by
  obtain ⟨as, has⟩ := h
  exact Inv_run as _ s (Inv_init ctx args cancelled) has

/-! ## Steps of the goroutine -/

theorem step_task_spawned (e : embeddedProcess) (w : World) (conf arr : Nat) (size : Int)
    (ht : w.tasks = [{ conf := conf, charArray := arr, size := size, pc := .spawned }]) :
    step { proc := e, world := w } (.taskStep 0) = some { proc := e, world :=
      { w with tasks := [{ conf := conf, charArray := arr, size := size, pc := .running }]
               trace := w.trace ++ [.runMain conf] } } := by
  simp [step, taskStep, ht, World.setPc, World.log]

theorem step_run_return (e : embeddedProcess) (w : World) (conf arr : Nat) (size : Int) (c : Int)
    (ht : w.tasks = [{ conf := conf, charArray := arr, size := size, pc := .running }]) :
    step { proc := e, world := w } (.runReturn 0 c) = some { proc := e, world :=
      { w with tasks := [{ conf := conf, charArray := arr, size := size, pc := .returned c }]
               trace := w.trace ++ [.runMainRet conf c] } } := by
  simp [step, runReturn, ht, World.setPc, World.log]

theorem step_task_send (e : embeddedProcess) (w : World) (conf arr : Nat) (size : Int) (c : Int)
    (hd : e.doneCh = some 0) (hc : w.chans = [[]])
    (ht : w.tasks = [{ conf := conf, charArray := arr, size := size, pc := .returned c }]) :
    step { proc := e, world := w } (.taskStep 0) = some { proc := e, world :=
      { w with chans := [[c]]
               tasks := [{ conf := conf, charArray := arr, size := size, pc := .sent }]
               trace := w.trace ++ [.send 0 c] } } := by
  simp [step, taskStep, ht, hd, hc, World.setPc, World.log]

theorem step_task_conf_free (e : embeddedProcess) (w : World) (conf arr : Nat) (size : Int)
    (ht : w.tasks = [{ conf := conf, charArray := arr, size := size, pc := .sent }]) :
    step { proc := e, world := w } (.taskStep 0) = some { proc := e, world :=
      { w with tasks := [{ conf := conf, charArray := arr, size := size, pc := .confFreed }]
               trace := w.trace ++ [.confFree conf] } } := by
  simp [step, taskStep, ht, World.setPc, World.log]

theorem step_task_array_free (e : embeddedProcess) (w : World) (conf arr : Nat) (size : Int)
    (ht : w.tasks = [{ conf := conf, charArray := arr, size := size, pc := .confFreed }]) :
    step { proc := e, world := w } (.taskStep 0) = some { proc := e, world :=
      { w with tasks := [{ conf := conf, charArray := arr, size := size, pc := .done }]
               trace := w.trace ++ [.freeCharArray arr size] } } := by
  simp [step, taskStep, ht, World.setPc, World.log]

theorem step_wait_receives (e : embeddedProcess) (w : World) (pick : Bool) (c : Int)
    (hd : e.doneCh = some 0) (hc : w.chans = [[c]])
    (hctx : w.ctxErr (e.ctx.getD .background) = none) :
    step { proc := e, world := w } (.wait pick) = some { proc := e, world :=
      { w with chans := [[]]
               trace := w.trace ++ [.recv 0 c, .waitRet (exitError c)] } } := by
  have h := Wait_receives e w pick 0 c [] hd (by simp [hc]) hctx
  simp [step, h, hc, World.log]

/-- A reachable state with a goroutine is a started one, with its channel. -/
theorem Started_of_tasks (s : Sys) (h : Inv s) (tk : Task) (ht : s.world.tasks = [tk]) :
    ∃ pre argv, (∀ ev ∈ pre, ev.isPre = true) ∧
      Started (pre ++ startEvents tk.conf tk.charArray tk.size argv) tk.conf tk.charArray tk.size s := by
  rcases h with h | ⟨pre, conf, arr, size, argv, hpre, h⟩
  · have := h.2.2.1
    rw [ht] at this
    simp at this
  · obtain ⟨hd, pc, buf, ext, c, ht1, rest⟩ := h
    rw [ht] at ht1
    simp only [List.cons.injEq, and_true] at ht1
    subst ht1
    exact ⟨pre, argv, hpre, hd, pc, buf, ext, c, ht, rest⟩

/-- A reachable state with a non-nil channel is a started one. -/
theorem Started_of_doneCh (s : Sys) (h : Inv s) (hd : s.proc.doneCh ≠ none) :
    ∃ pre conf arr size argv, (∀ ev ∈ pre, ev.isPre = true) ∧
      Started (pre ++ startEvents conf arr size argv) conf arr size s := by
  rcases h with h | h
  · exact absurd h.1 hd
  · exact h

theorem setPc_trace (w : World) (t : Nat) (pc : Pc) : (w.setPc t pc).trace = w.trace := rfl

/-- Every transition only appends to the trace. -/
theorem step_trace (s s1 : Sys) (a : Action) (hs : step s a = some s1) :
    ∃ l, s1.world.trace = s.world.trace ++ l := by
  cases a with
  | start k =>
    cases hd : s.proc.doneCh with
    | none =>
      obtain ⟨sz, av, rfl⟩ := step_start_unstarted s s1 k hd hs
      by_cases hk : k = 0
      · subst hk
        exact ⟨_, by simp [startConfigured, World.log]; rfl⟩
      · exact ⟨_, by simp [startConfigured, World.log, hk]; rfl⟩
    | some ch =>
      rw [step_start_started s k (by simp [hd]), Option.some.injEq] at hs
      subst hs
      exact ⟨_, rfl⟩
  | wait pick =>
    cases hd : s.proc.doneCh with
    | none =>
      rw [step_wait_unstarted s pick hd, Option.some.injEq] at hs
      subst hs
      exact ⟨_, rfl⟩
    | some ch =>
      simp only [step] at hs
      cases hw : Wait s.proc s.world pick with
      | none => rw [hw] at hs; simp at hs
      | some r =>
        rw [hw] at hs
        simp only [Option.some.injEq] at hs
        subst hs
        rcases Wait_started_cases _ _ _ ch hd r hw with ⟨err, -, rfl⟩ | ⟨code, rest, -, rfl⟩
        · exact ⟨_, rfl⟩
        · exact ⟨[.recv ch code, .waitRet (exitError code)], by simp [World.log]⟩
  | controlConn =>
    simp only [step, Option.some.injEq] at hs
    subst hs
    exact ⟨_, rfl⟩
  | cancel id err =>
    simp only [step, Option.some.injEq] at hs
    subst hs
    refine ⟨[], ?_⟩
    simp only [World.cancel]; split <;> simp
  | taskStep t =>
    simp only [step, Option.map_eq_some'] at hs
    obtain ⟨w1, hw1, rfl⟩ := hs
    unfold taskStep at hw1
    split at hw1
    · simp at hw1
    · split at hw1
      · simp only [Option.some.injEq] at hw1; subst hw1; exact ⟨_, rfl⟩
      · simp at hw1
      · split at hw1
        · simp at hw1
        · split at hw1
          · simp at hw1
          · split at hw1
            · simp only [Option.some.injEq] at hw1; subst hw1; exact ⟨_, rfl⟩
            · simp at hw1
      · simp only [Option.some.injEq] at hw1; subst hw1; exact ⟨_, rfl⟩
      · simp only [Option.some.injEq] at hw1; subst hw1; exact ⟨_, rfl⟩
      · simp at hw1
  | runReturn t c =>
    simp only [step, Option.map_eq_some'] at hs
    obtain ⟨w1, hw1, rfl⟩ := hs
    unfold runReturn at hw1
    split at hw1
    · simp at hw1
    · split at hw1
      · simp only [Option.some.injEq] at hw1; subst hw1; exact ⟨_, rfl⟩
      · simp at hw1

theorem run_trace (as : List Action) :
    ∀ (s s1 : Sys), run s as = some s1 → ∃ l, s1.world.trace = s.world.trace ++ l := by
  induction as with
  | nil => intro s s1 hs; simp only [run, Option.some.injEq] at hs; subst hs; exact ⟨[], by simp⟩
  | cons a as ih =>
    intro s s1 hs
    simp only [run] at hs
    cases hst : step s a with
    | none => rw [hst] at hs; simp at hs
    | some s2 =>
      rw [hst] at hs
      obtain ⟨l1, h1⟩ := step_trace s s2 a hst
      obtain ⟨l2, h2⟩ := ih s2 s1 hs
      exact ⟨l1 ++ l2, by rw [h2, h1, List.append_assoc]⟩

theorem run_append (as bs : List Action) :
    ∀ (s s1 s2 : Sys), run s as = some s1 → run s1 bs = some s2 → run s (as ++ bs) = some s2 := by
  induction as with
  | nil => intro s s1 s2 h1 h2; simp only [run, Option.some.injEq] at h1; subst h1; exact h2
  | cons a as ih =>
    intro s s1 s2 h1 h2
    simp only [run, List.cons_append] at h1 ⊢
    cases hst : step s a with
    | none => rw [hst] at h1; simp at h1
    | some s3 => rw [hst] at h1; exact ih s3 s1 s2 h1 h2

theorem Reachable_run (ctx : Option Context) (args : List GoString)
    (cancelled : List (Nat × CtxErr)) (s s1 : Sys) (as : List Action)
    (h : Reachable ctx args cancelled s) (hs : run s as = some s1) :
    Reachable ctx args cancelled s1 := by
  obtain ⟨bs, hb⟩ := h
  exact ⟨bs ++ as, run_append bs as _ s s1 hb hs⟩

/-! ## When `Start` faults -/

theorem cInt_lt (n : Int) : cInt n < 2147483648 := by
  unfold cInt
  omega

/-- An array too short for the strings left: some write falls outside it. -/
theorem fillCharArray_short (l : List GoString) :
    ∀ (xs : CharArray) (i : Nat), xs.length < 2147483648 → i ≤ xs.length →
      xs.length < i + l.length → fillCharArray (some xs) l i = .error .segv := by
  induction l with
  | nil => intro xs i _ h1 h2; simp only [List.length_nil, Nat.add_zero] at h2; omega
  | cons s rest ih =>
    intro xs i hfit h1 h2
    simp only [List.length_cons] at h2
    have hc : cInt (i : Int) = (i : Int) := cInt_of_fits _ (by omega) (by omega)
    by_cases hlt : i < xs.length
    · have hcond : (0 : Int) ≤ (i : Int) ∧ (i : Int) < (xs.length : Int) := by omega
      have hs : (xs.set i (some (CString s))).length = xs.length := List.length_set ..
      have hset : setArrayString (some xs) (CString s) (cInt i)
          = .ok (some (xs.set i (some (CString s)))) := by
        rw [hc]
        show (if 0 ≤ (i : Int) ∧ (i : Int) < (xs.length : Int) then
          Except.ok (some (xs.set (i : Int).toNat (some (CString s))))
        else Except.error Fault.segv) = _
        rw [if_pos hcond, Int.toNat_ofNat]
      rw [fillCharArray.eq_2, hset]
      exact ih (xs.set i (some (CString s))) (i + 1) (by rw [hs]; exact hfit) (by rw [hs]; omega)
        (by rw [hs]; omega)
    · have hcond : ¬ ((0 : Int) ≤ (i : Int) ∧ (i : Int) < (xs.length : Int)) := by omega
      have hset : setArrayString (some xs) (CString s) (cInt i) = .error .segv := by
        rw [hc]
        show (if 0 ≤ (i : Int) ∧ (i : Int) < (xs.length : Int) then
          Except.ok (some (xs.set (i : Int).toNat (some (CString s))))
        else Except.error Fault.segv) = _
        rw [if_neg hcond]
      rw [fillCharArray.eq_2, hset]

/-- The array cannot be built when the count does not fit a C `int`. -/
theorem fillCharArray_too_long (s : GoString) (rest : List GoString)
    (h : 2147483648 ≤ rest.length + 1) :
    fillCharArray (makeCharArray (cInt (s :: rest).length)) (s :: rest) 0 = .error .segv := by
  have hlt := cInt_lt ((s :: rest).length : Int)
  generalize hz : cInt ((s :: rest).length : Int) = z at hlt
  by_cases hneg : z < 0
  · have hm : makeCharArray z = none := by
      show (if z < 0 then none else some (List.replicate z.toNat none)) = _
      rw [if_pos hneg]
    rw [hm]
    exact fillCharArray_null s rest 0
  · have hm : makeCharArray z = some (List.replicate z.toNat none) := by
      show (if z < 0 then none else some (List.replicate z.toNat none)) = _
      rw [if_neg hneg]
    have hl : (List.replicate z.toNat (none : Option CStr)).length = z.toNat :=
      List.length_replicate ..
    rw [hm]
    apply fillCharArray_short
    · rw [hl]; omega
    · omega
    · rw [hl, List.length_cons]; omega

/-- An unstarted process whose argument count does not fit a C `int`: `Start`
faults. -/
theorem Start_fault (e : embeddedProcess) (w : World) (k : Int) (h : e.doneCh = none)
    (hlen : 2147483648 ≤ e.args.length + 1) : Start e w k = .error .segv := by
  have hn : ¬ (e.doneCh ≠ none) := by simp [h]
  have h2 : fillCharArray (makeCharArray (cInt (startArgs e).length)) (startArgs e) 0
      = .error .segv := fillCharArray_too_long tor e.args hlen
  unfold Start
  rw [if_neg hn, h2]

/-- On an unstarted process `Start` returns exactly when the argument count
fits a C `int`; otherwise it faults in `setArrayString`. -/
theorem Start_returns_iff (e : embeddedProcess) (w : World) (k : Int) (h : e.doneCh = none) :
    (∃ r, Start e w k = .ok r) ↔ e.args.length + 1 < 2147483648 := by
  constructor
  · intro ⟨r, hr⟩
    by_contra hn
    have hn1 : 2147483648 ≤ e.args.length + 1 := by omega
    have hd : ¬ (e.doneCh ≠ none) := by simp [h]
    have h2 : fillCharArray (makeCharArray (cInt (startArgs e).length)) (startArgs e) 0
        = .error .segv := fillCharArray_too_long tor e.args hn1
    unfold Start at hr
    rw [if_neg hd, h2] at hr
    cases hr
  · intro hfit
    exact ⟨_, Start_unstarted e w k h hfit⟩

/-! ## Completion codes -/

theorem exitError_eq_none (c : Int) : exitError c = none ↔ c = 0 := by
  unfold exitError
  by_cases h : c = 0 <;> simp [h]

theorem exitError_of_ne (c : Int) (h : c ≠ 0) :
    exitError c = some (.errorf ("Command completed with error exit code: " ++ toString c)) := by
  unfold exitError
  rw [if_neg h]

/-- In a reachable state whose goroutine has not sent yet, the channel is
there and empty and the channel field names it. -/
theorem chan_empty_before_send (s : Sys) (h : Inv s) (tk : Task) (ht : s.world.tasks = [tk])
    (hp : tk.pc.progress < 3) : s.proc.doneCh = some 0 ∧ s.world.chans = [[]] := by
  obtain ⟨pre, argv, -, hd, pc, buf, ext, c, ht1, hc, -, -, -, -, hbuf, -⟩ :=
    Started_of_tasks s h tk ht
  rw [ht] at ht1
  simp only [List.cons.injEq, and_true] at ht1
  have hpc : tk.pc = pc := by rw [ht1]
  rw [hpc] at hp
  refine ⟨hd, ?_⟩
  rcases hbuf with ⟨-, hb, -⟩ | ⟨h3, -, -⟩ | ⟨h3, -, -⟩
  · rw [hc, hb]
  · omega
  · omega

theorem ctxErr_congr (w w1 : World) (h : w1.cancelled = w.cancelled) (x : Context) :
    w1.ctxErr x = w.ctxErr x := by
  cases x with
  | background => rfl
  | user id => simp only [World.ctxErr, h]

theorem task_call (s : Sys) (conf arr : Nat) (size : Int)
    (ht : s.world.tasks = [{ conf := conf, charArray := arr, size := size, pc := .spawned }]) :
    ∃ s1, step s (.taskStep 0) = some s1 ∧ Frame s s1 [.runMain conf] ∧
      s1.world.chans = s.world.chans ∧
      s1.world.tasks = [{ conf := conf, charArray := arr, size := size, pc := .running }] :=
  ⟨_, step_task_spawned s.proc s.world conf arr size ht, ⟨rfl, rfl, rfl, rfl, rfl⟩, rfl, rfl⟩

theorem task_return (s : Sys) (conf arr : Nat) (size : Int) (c : Int)
    (ht : s.world.tasks = [{ conf := conf, charArray := arr, size := size, pc := .running }]) :
    ∃ s1, step s (.runReturn 0 c) = some s1 ∧ Frame s s1 [.runMainRet conf c] ∧
      s1.world.chans = s.world.chans ∧
      s1.world.tasks = [{ conf := conf, charArray := arr, size := size, pc := .returned c }] :=
  ⟨_, step_run_return s.proc s.world conf arr size c ht, ⟨rfl, rfl, rfl, rfl, rfl⟩, rfl, rfl⟩

theorem task_send (s : Sys) (conf arr : Nat) (size : Int) (c : Int)
    (hd : s.proc.doneCh = some 0) (hc : s.world.chans = [[]])
    (ht : s.world.tasks = [{ conf := conf, charArray := arr, size := size, pc := .returned c }]) :
    ∃ s1, step s (.taskStep 0) = some s1 ∧ Frame s s1 [.send 0 c] ∧
      s1.world.chans = [[c]] ∧
      s1.world.tasks = [{ conf := conf, charArray := arr, size := size, pc := .sent }] :=
  ⟨_, step_task_send s.proc s.world conf arr size c hd hc ht, ⟨rfl, rfl, rfl, rfl, rfl⟩, rfl, rfl⟩

theorem task_conf_free (s : Sys) (conf arr : Nat) (size : Int)
    (ht : s.world.tasks = [{ conf := conf, charArray := arr, size := size, pc := .sent }]) :
    ∃ s1, step s (.taskStep 0) = some s1 ∧ Frame s s1 [.confFree conf] ∧
      s1.world.chans = s.world.chans ∧
      s1.world.tasks = [{ conf := conf, charArray := arr, size := size, pc := .confFreed }] :=
  ⟨_, step_task_conf_free s.proc s.world conf arr size ht, ⟨rfl, rfl, rfl, rfl, rfl⟩, rfl, rfl⟩

theorem task_array_free (s : Sys) (conf arr : Nat) (size : Int)
    (ht : s.world.tasks = [{ conf := conf, charArray := arr, size := size, pc := .confFreed }]) :
    ∃ s1, step s (.taskStep 0) = some s1 ∧ Frame s s1 [.freeCharArray arr size] ∧
      s1.world.chans = s.world.chans ∧
      s1.world.tasks = [{ conf := conf, charArray := arr, size := size, pc := .done }] :=
  ⟨_, step_task_array_free s.proc s.world conf arr size ht, ⟨rfl, rfl, rfl, rfl, rfl⟩, rfl, rfl⟩

theorem wait_receive (s : Sys) (pick : Bool) (c : Int)
    (hd : s.proc.doneCh = some 0) (hc : s.world.chans = [[c]])
    (hctx : s.world.ctxErr (s.proc.ctx.getD .background) = none) :
    ∃ s1, step s (.wait pick) = some s1 ∧ Frame s s1 [.recv 0 c, .waitRet (exitError c)] ∧
      s1.world.chans = [[]] ∧ s1.world.tasks = s.world.tasks :=
  ⟨_, step_wait_receives s.proc s.world pick c hd hc hctx, ⟨rfl, rfl, rfl, rfl, rfl⟩, rfl, rfl⟩

theorem run_cons (s s1 : Sys) (a : Action) (as : List Action) (h : step s a = some s1) :
    run s (a :: as) = run s1 as := by
  simp only [run, h]

/-- From a state whose goroutine is inside the native run: the run returns
`c`, the goroutine sends it, `Wait` receives it. -/
theorem deliver_and_wait (s : Sys) (conf arr : Nat) (size : Int) (c : Int) (pick : Bool)
    (hd : s.proc.doneCh = some 0) (hc : s.world.chans = [[]])
    (ht : s.world.tasks = [{ conf := conf, charArray := arr, size := size, pc := .running }])
    (hctx : s.world.ctxErr (s.proc.ctx.getD .background) = none) :
    ∃ s1, run s [.runReturn 0 c, .taskStep 0, .wait pick] = some s1 ∧ s1.proc = s.proc ∧
      s1.world.trace = s.world.trace ++
        [.runMainRet conf c, .send 0 c, .recv 0 c, .waitRet (exitError c)] := by
  obtain ⟨s1, h1, ⟨hp1, hcn1, -, -, htr1⟩, hc1, ht1⟩ := task_return s conf arr size c ht
  obtain ⟨s2, h2, ⟨hp2, hcn2, -, -, htr2⟩, hc2, ht2⟩ :=
    task_send s1 conf arr size c (by rw [hp1]; exact hd) (by rw [hc1]; exact hc) ht1
  obtain ⟨s3, h3, ⟨hp3, -, -, -, htr3⟩, -, -⟩ := wait_receive s2 pick c
    (by rw [hp2, hp1]; exact hd) hc2
    (by rw [hp2, hp1, ctxErr_congr s.world s2.world (by rw [hcn2, hcn1])]; exact hctx)
  refine ⟨s3, ?_, by rw [hp3, hp2, hp1], ?_⟩
  · rw [run_cons s s1 _ _ h1, run_cons s1 s2 _ _ h2, run_cons s2 s3 _ _ h3]
    rfl
  · rw [htr3, htr2, htr1]
    simp

/-- C3: in a reachable state of a started process whose native run has not
returned yet (the goroutine is about to call it or is inside it), with a
context that is nil or not cancelled: when the native run returns the code `c`
the goroutine sends it and `Wait` returns; what `Wait` returns is nil if and
only if `c = 0`, and otherwise the error whose message is "Command completed
with error exit code: " followed by the decimal rendering of `c`. More
generally, whenever the code at the head of the channel is `c` and the context
is nil or not cancelled, `Wait` returns that result. -/
theorem wait_returns_exit_code (ctx : Option Context) (args : List GoString)
    (cancelled : List (Nat × CtxErr)) (s : Sys) (tk : Task) (c : Int) (pick : Bool)
    (hr : Reachable ctx args cancelled s)
    (htk : s.world.tasks = [tk]) (hpc : tk.pc = .spawned ∨ tk.pc = .running)
    (hctx : s.world.ctxErr (s.proc.ctx.getD .background) = none) :
    (∃ s1, run s ((if tk.pc = .spawned then [.taskStep 0] else []) ++
        [.runReturn 0 c, .taskStep 0, .wait pick]) = some s1 ∧ s1.proc = s.proc ∧
      s1.world.trace = s.world.trace ++ (if tk.pc = .spawned then [.runMain tk.conf] else []) ++
        [.runMainRet tk.conf c, .send 0 c, .recv 0 c, .waitRet (exitError c)]) ∧
    (exitError c = none ↔ c = 0) ∧
    (c ≠ 0 → exitError c
      = some (.errorf ("Command completed with error exit code: " ++ toString c))) ∧
    (∀ (e : embeddedProcess) (w : World) (ch : Nat) (rest : List Int),
      e.doneCh = some ch → w.chans[ch]?.getD [] = c :: rest →
      w.ctxErr (e.ctx.getD .background) = none →
      ∃ w1, Wait e w pick = some (exitError c, e, w1)) := by
  refine ⟨?_, exitError_eq_none c, exitError_of_ne c, ?_⟩
  · have hinv := Inv_of_reachable ctx args cancelled s hr
    obtain ⟨hd, hc⟩ := chan_empty_before_send s hinv tk htk
      (by rcases hpc with h | h <;> rw [h] <;> decide)
    rcases tk with ⟨conf, arr, size, pc⟩
    simp only at hpc
    rcases hpc with hpc | hpc
    · subst hpc
      obtain ⟨s0, h0, ⟨hp0, hcn0, -, -, htr0⟩, hc0, ht0⟩ := task_call s conf arr size htk
      obtain ⟨s1, h1, hp1, htr1⟩ := deliver_and_wait s0 conf arr size c pick
        (by rw [hp0]; exact hd) (by rw [hc0]; exact hc) ht0
        (by rw [hp0, ctxErr_congr s.world s0.world hcn0]; exact hctx)
      refine ⟨s1, ?_, by rw [hp1, hp0], ?_⟩
      · simp only [if_true, List.singleton_append]
        rw [run_cons s s0 _ _ h0]
        exact h1
      · rw [htr1, htr0]
        simp
    · subst hpc
      obtain ⟨s1, h1, hp1, htr1⟩ := deliver_and_wait s conf arr size c pick hd hc htk hctx
      refine ⟨s1, ?_, hp1, ?_⟩
      · simpa using h1
      · rw [htr1]
        simp
  · intro e w ch rest hd hb hcx
    exact ⟨_, Wait_receives e w pick ch c rest hd hb hcx⟩

theorem demoRunning_reachable : Reachable none [[97]] [] demoRunning :=
  ⟨[.start 0, .taskStep 0], by decide⟩

theorem wait_returns_exit_code_witness :
    (∃ s1, run demoRunning [.runReturn 0 3, .taskStep 0, .wait false] = some s1 ∧
      s1.proc = demoRunning.proc ∧
      s1.world.trace = demoRunning.world.trace ++
        [.runMainRet 0 3, .send 0 3, .recv 0 3,
         .waitRet (some (.errorf "Command completed with error exit code: 3"))]) :=
  (wait_returns_exit_code none [[97]] [] demoRunning
    { conf := 0, charArray := 0, size := 2, pc := .running } 3 false
    demoRunning_reachable rfl (Or.inr rfl) rfl).1

/-- C4: a started process whose supplied context is cancelled while no
completion code is in the channel: `Wait` returns the error of that context,
which is not nil and is not the error made from a completion code, and changes
nothing. -/
theorem wait_cancelled_returns_context_error (e : embeddedProcess) (w : World) (pick : Bool)
    (ch : Nat) (cx : Context) (err : CtxErr) (c : Int)
    (hd : e.doneCh = some ch) (hcx : e.ctx = some cx) (herr : w.ctxErr cx = some err)
    (hbuf : w.chans[ch]?.getD [] = []) :
    Wait e w pick = some (some (.ofContext err), e, w) ∧
    some (Error.ofContext err) ≠ none ∧
    some (Error.ofContext err) ≠ exitError c := by
  refine ⟨Wait_cancelled e w pick ch err hd hbuf (by rw [hcx]; exact herr), by simp, ?_⟩
  unfold exitError
  split <;> simp

theorem demoCancelled_reachable : Reachable (some (.user 7)) [[97]] [] demoCancelled :=
  ⟨[.start 0, .taskStep 0, .cancel 7 .deadlineExceeded], by decide⟩

theorem wait_cancelled_returns_context_error_witness :
    Wait demoCancelled.proc demoCancelled.world false
      = some (some (.ofContext .deadlineExceeded), demoCancelled.proc, demoCancelled.world) :=
  (wait_cancelled_returns_context_error demoCancelled.proc demoCancelled.world false 0 (.user 7)
    .deadlineExceeded 0 rfl rfl rfl rfl).1

/-! ## The goroutine runs to its end -/

/-- Nothing stops the goroutine: from any point it runs to its end, and
records the rest of its events, each once, in the order of its code. -/
theorem finish (s : Sys) (conf arr : Nat) (size : Int) (pc : Pc) (c : Int)
    (hd : s.proc.doneCh = some 0)
    (ht : s.world.tasks = [{ conf := conf, charArray := arr, size := size, pc := pc }])
    (hc : pc.progress < 3 → s.world.chans = [[]]) :
    ∃ s1, run s (remaining pc c) = some s1 ∧ s1.proc = s.proc ∧
      s1.world.tasks = [{ conf := conf, charArray := arr, size := size, pc := .done }] ∧
      (pc.progress < 3 → s1.world.chans = [[pc.code c]]) ∧
      (3 ≤ pc.progress → s1.world.chans = s.world.chans) ∧
      s1.world.trace = s.world.trace ++ (taskEvents conf arr size (pc.code c)).drop pc.progress := by
  have hdone : ∀ s4 : Sys, s4.world.tasks
      = [{ conf := conf, charArray := arr, size := size, pc := .confFreed }] →
      ∃ s5, run s4 [.taskStep 0] = some s5 ∧ s5.proc = s4.proc ∧
        s5.world.tasks = [{ conf := conf, charArray := arr, size := size, pc := .done }] ∧
        s5.world.chans = s4.world.chans ∧
        s5.world.trace = s4.world.trace ++ [.freeCharArray arr size] := by
    intro s4 h4
    obtain ⟨s5, h5, ⟨hp5, -, -, -, htr5⟩, hc5, ht5⟩ := task_array_free s4 conf arr size h4
    exact ⟨s5, by rw [run_cons s4 s5 _ _ h5]; rfl, hp5, ht5, hc5, htr5⟩
  have hsent : ∀ s3 : Sys, s3.world.tasks
      = [{ conf := conf, charArray := arr, size := size, pc := .sent }] →
      ∃ s5, run s3 [.taskStep 0, .taskStep 0] = some s5 ∧ s5.proc = s3.proc ∧
        s5.world.tasks = [{ conf := conf, charArray := arr, size := size, pc := .done }] ∧
        s5.world.chans = s3.world.chans ∧
        s5.world.trace = s3.world.trace ++ [.confFree conf, .freeCharArray arr size] := by
    intro s3 h3
    obtain ⟨s4, h4, ⟨hp4, -, -, -, htr4⟩, hc4, ht4⟩ := task_conf_free s3 conf arr size h3
    obtain ⟨s5, h5, hp5, ht5, hc5, htr5⟩ := hdone s4 ht4
    exact ⟨s5, by rw [run_cons s3 s4 _ _ h4]; exact h5, by rw [hp5, hp4], ht5,
      by rw [hc5, hc4], by rw [htr5, htr4]; simp⟩
  have hret : ∀ (s2 : Sys) (c1 : Int), s2.proc.doneCh = some 0 → s2.world.chans = [[]] →
      s2.world.tasks = [{ conf := conf, charArray := arr, size := size, pc := .returned c1 }] →
      ∃ s5, run s2 [.taskStep 0, .taskStep 0, .taskStep 0] = some s5 ∧ s5.proc = s2.proc ∧
        s5.world.tasks = [{ conf := conf, charArray := arr, size := size, pc := .done }] ∧
        s5.world.chans = [[c1]] ∧
        s5.world.trace = s2.world.trace ++
          [.send 0 c1, .confFree conf, .freeCharArray arr size] := by
    intro s2 c1 hd2 hc2 h2
    obtain ⟨s3, h3, ⟨hp3, -, -, -, htr3⟩, hc3, ht3⟩ := task_send s2 conf arr size c1 hd2 hc2 h2
    obtain ⟨s5, h5, hp5, ht5, hc5, htr5⟩ := hsent s3 ht3
    exact ⟨s5, by rw [run_cons s2 s3 _ _ h3]; exact h5, by rw [hp5, hp3], ht5,
      by rw [hc5, hc3], by rw [htr5, htr3]; simp⟩
  have hrun : ∀ s1 : Sys, s1.proc.doneCh = some 0 → s1.world.chans = [[]] →
      s1.world.tasks = [{ conf := conf, charArray := arr, size := size, pc := .running }] →
      ∃ s5, run s1 [.runReturn 0 c, .taskStep 0, .taskStep 0, .taskStep 0] = some s5 ∧
        s5.proc = s1.proc ∧
        s5.world.tasks = [{ conf := conf, charArray := arr, size := size, pc := .done }] ∧
        s5.world.chans = [[c]] ∧
        s5.world.trace = s1.world.trace ++
          [.runMainRet conf c, .send 0 c, .confFree conf, .freeCharArray arr size] := by
    intro s1 hd1 hc1 h1
    obtain ⟨s2, h2, ⟨hp2, -, -, -, htr2⟩, hc2, ht2⟩ := task_return s1 conf arr size c h1
    obtain ⟨s5, h5, hp5, ht5, hc5, htr5⟩ := hret s2 c (by rw [hp2]; exact hd1)
      (by rw [hc2]; exact hc1) ht2
    exact ⟨s5, by rw [run_cons s1 s2 _ _ h2]; exact h5, by rw [hp5, hp2], ht5, hc5,
      by rw [htr5, htr2]; simp⟩
  cases pc with
  | spawned =>
    obtain ⟨s1, h1, ⟨hp1, -, -, -, htr1⟩, hc1, ht1⟩ := task_call s conf arr size ht
    obtain ⟨s5, h5, hp5, ht5, hc5, htr5⟩ := hrun s1 (by rw [hp1]; exact hd)
      (by rw [hc1]; exact hc (by decide)) ht1
    exact ⟨s5, by rw [remaining, run_cons s s1 _ _ h1]; exact h5, by rw [hp5, hp1], ht5,
      fun _ => hc5, fun h => absurd h (by decide), by rw [htr5, htr1]; simp [taskEvents, Pc.progress, Pc.code]⟩
  | running =>
    obtain ⟨s5, h5, hp5, ht5, hc5, htr5⟩ := hrun s hd (hc (by decide)) ht
    exact ⟨s5, h5, hp5, ht5, fun _ => hc5, fun h => absurd h (by decide),
      by rw [htr5]; simp [taskEvents, Pc.progress, Pc.code]⟩
  | returned c1 =>
    obtain ⟨s5, h5, hp5, ht5, hc5, htr5⟩ := hret s c1 hd (hc (by simp [Pc.progress])) ht
    exact ⟨s5, h5, hp5, ht5, fun _ => hc5, fun h => absurd h (by simp [Pc.progress]),
      by rw [htr5]; simp [taskEvents, Pc.progress, Pc.code]⟩
  | sent =>
    obtain ⟨s5, h5, hp5, ht5, hc5, htr5⟩ := hsent s ht
    exact ⟨s5, h5, hp5, ht5, fun h => absurd h (by decide), fun _ => hc5,
      by rw [htr5]; simp [taskEvents, Pc.progress]⟩
  | confFreed =>
    obtain ⟨s5, h5, hp5, ht5, hc5, htr5⟩ := hdone s ht
    exact ⟨s5, h5, hp5, ht5, fun h => absurd h (by decide), fun _ => hc5,
      by rw [htr5]; simp [taskEvents, Pc.progress]⟩
  | done =>
    exact ⟨s, rfl, rfl, ht, fun h => absurd h (by decide), fun _ => rfl,
      by simp [taskEvents, Pc.progress]⟩

/-- A reachable started state: the channel field, the one goroutine, the one
channel, empty as long as the goroutine has not sent. -/
theorem started_shape (s : Sys) (h : Inv s) (hd : s.proc.doneCh ≠ none) :
    s.proc.doneCh = some 0 ∧ ∃ tk buf, s.world.tasks = [tk] ∧ s.world.chans = [buf] ∧
      buf.length ≤ 1 ∧ (tk.pc.progress < 3 → buf = []) := by
  obtain ⟨pre, conf, arr, size, argv, -, hd0, pc, buf, ext, c, ht, hc, -, -, -, -, hbuf, -⟩ :=
    Started_of_doneCh s h hd
  refine ⟨hd0, _, buf, ht, hc, ?_, ?_⟩
  · rcases hbuf with ⟨-, hb, -⟩ | ⟨-, hb, -⟩ | ⟨-, hb, -⟩ <;> simp [hb]
  · intro hp
    rcases hbuf with ⟨-, hb, -⟩ | ⟨h3, -, -⟩ | ⟨h3, -, -⟩
    · exact hb
    · simp only at hp; omega
    · simp only at hp; omega

/-- C7: when `Wait` on a started process (in a reachable state) returns the
error of the context, the struct and the whole world are as before: `ctx`,
`args` and `doneCh` are the same, no code is taken from the channel, a later
`Start` still returns "Already started"; and the goroutine is not stopped: from
where it is it still runs to its end, delivering the code of the native run to
the channel and freeing the configuration and the array. -/
theorem cancelled_wait_only_abandons (ctx : Option Context) (args : List GoString)
    (cancelled : List (Nat × CtxErr)) (s : Sys) (pick : Bool) (err : CtxErr)
    (e1 : embeddedProcess) (w1 : World) (k c : Int)
    (hr : Reachable ctx args cancelled s) (hd : s.proc.doneCh ≠ none)
    (hw : Wait s.proc s.world pick = some (some (.ofContext err), e1, w1)) :
    e1 = s.proc ∧ w1 = s.world ∧
    Start e1 w1 k = .ok (some (.errorf "Already started"), e1, w1) ∧
    ∃ tk s2, w1.tasks = [tk] ∧
      run { proc := e1, world := w1 } (remaining tk.pc c) = some s2 ∧
      s2.proc = e1 ∧
      s2.world.tasks = [{ tk with pc := .done }] ∧
      (tk.pc.progress < 3 → s2.world.chans = [[tk.pc.code c]]) ∧
      s2.world.trace = w1.trace ++
        (taskEvents tk.conf tk.charArray tk.size (tk.pc.code c)).drop tk.pc.progress := by
  have hinv := Inv_of_reachable ctx args cancelled s hr
  obtain ⟨hd0, tk, buf, ht, hc, -, hb⟩ := started_shape s hinv hd
  have heq : e1 = s.proc ∧ w1 = s.world := by
    rcases Wait_started_cases _ _ _ 0 hd0 _ hw with ⟨err1, -, h1⟩ | ⟨code, rest, -, h1⟩
    · simp only [Prod.mk.injEq] at h1
      exact ⟨h1.2.1, h1.2.2⟩
    · simp only [Prod.mk.injEq] at h1
      have h2 := h1.1
      unfold exitError at h2
      split at h2 <;> simp at h2
  obtain ⟨rfl, rfl⟩ := heq
  refine ⟨rfl, rfl, Start_started _ _ k hd, ?_⟩
  rcases tk with ⟨conf, arr, size, pc⟩
  obtain ⟨s2, h2, hp2, ht2, hc2, -, htr2⟩ := finish s conf arr size pc c hd0 ht
    (fun hp => by rw [hc, hb hp])
  exact ⟨_, s2, ht, h2, hp2, ht2, hc2, htr2⟩

theorem cancelled_wait_only_abandons_witness :
    Start demoCancelled.proc demoCancelled.world 0
        = .ok (some (.errorf "Already started"), demoCancelled.proc, demoCancelled.world) ∧
    ∃ tk s2, demoCancelled.world.tasks = [tk] ∧
      run { proc := demoCancelled.proc, world := demoCancelled.world } (remaining tk.pc 5)
        = some s2 ∧
      s2.proc = demoCancelled.proc ∧
      s2.world.tasks = [{ tk with pc := .done }] ∧
      (tk.pc.progress < 3 → s2.world.chans = [[tk.pc.code 5]]) ∧
      s2.world.trace = demoCancelled.world.trace ++
        (taskEvents tk.conf tk.charArray tk.size (tk.pc.code 5)).drop tk.pc.progress :=
  (cancelled_wait_only_abandons (some (.user 7)) [[97]] [] demoCancelled false .deadlineExceeded
    demoCancelled.proc demoCancelled.world 0 5 demoCancelled_reachable (by decide) (by decide)).2.2

/-! ## Counting in the trace -/

theorem isExitMessage_exit (x : String) :
    isExitMessage ("Command completed with error exit code: " ++ x) = true := by
  simp [isExitMessage, String.data_append]

theorem isPre_not_makeChan (x : Event) (h : x.isPre = true) : x.isMakeChan = false := by
  cases x <;> first | rfl | simp [Event.isPre] at h

theorem isPre_not_go (x : Event) (h : x.isPre = true) : x.isGo = false := by
  cases x <;> first | rfl | simp [Event.isPre] at h

theorem isPre_not_send (x : Event) (h : x.isPre = true) : x.isSend = false := by
  cases x <;> first | rfl | simp [Event.isPre] at h

theorem isPre_not_recv (x : Event) (h : x.isPre = true) : x.isRecv = false := by
  cases x <;> first | rfl | simp [Event.isPre] at h

theorem isPre_not_startOk (x : Event) (h : x.isPre = true) : x.isStartOk = false := by
  cases x with
  | startRet err => cases err with
    | none => simp [Event.isPre] at h
    | some e => rfl
  | _ => rfl

theorem isPre_not_completion (x : Event) (h : x.isPre = true) : x.isCompletion = false := by
  cases x with
  | waitRet err =>
    cases err with
    | none => simp [Event.isPre] at h
    | some e =>
      cases e with
      | errorf m =>
        simp only [Event.isPre, beq_iff_eq] at h
        subst h
        decide
      | _ => rfl
  | _ => rfl

theorem isPost_not_makeChan (x : Event) (h : x.isPost = true) : x.isMakeChan = false := by
  cases x <;> first | rfl | simp [Event.isPost] at h

theorem isPost_not_go (x : Event) (h : x.isPost = true) : x.isGo = false := by
  cases x <;> first | rfl | simp [Event.isPost] at h

theorem isPost_not_startOk (x : Event) (h : x.isPost = true) : x.isStartOk = false := by
  cases x with
  | startRet err => cases err with
    | none => simp [Event.isPost] at h
    | some e => rfl
  | _ => rfl

theorem isSend_isTask (x : Event) (h : x.isSend = true) : x.isTask = true := by
  cases x <;> first | rfl | simp [Event.isSend] at h

theorem isCompletion_isResult (x : Event) (h : x.isCompletion = true) : x.isResult = true := by
  cases x with
  | waitRet err =>
    cases err with
    | none => rfl
    | some e => cases e <;> first | rfl | simp [Event.isCompletion] at h
  | _ => simp [Event.isCompletion] at h

theorem exitError_isCompletion (c : Int) : (Event.waitRet (exitError c)).isCompletion = true := by
  unfold exitError
  split
  · rfl
  · exact isExitMessage_exit _

theorem filter_through {α : Type} (p q : α → Bool) (l : List α)
    (h : ∀ x, p x = true → q x = true) : l.filter p = (l.filter q).filter p := by
  rw [List.filter_filter]
  congr 1
  funext x
  cases hp : p x
  · simp
  · simp [h x hp]

theorem filter_pre {p : Event → Bool} (hp : ∀ x, x.isPre = true → p x = false)
    (l : List Event) (h : ∀ ev ∈ l, ev.isPre = true) : l.filter p = [] :=
  filter_eq_nil_of p Event.isPre l h hp

theorem filter_post {p : Event → Bool} (hp : ∀ x, x.isPost = true → p x = false)
    (l : List Event) (h : ∀ ev ∈ l, ev.isPost = true) : l.filter p = [] :=
  filter_eq_nil_of p Event.isPost l h hp

/-- The counts in the trace of a reachable started state. -/
theorem started_counts (s : Sys) (h : Inv s) (hd : s.proc.doneCh ≠ none) :
    s.world.trace.filter Event.isMakeChan = [.makeChan 0] ∧
    s.world.trace.filter Event.isGo = [.go 0] ∧
    s.world.trace.filter Event.isStartOk = [.startRet none] ∧
    ∃ tk c, s.world.tasks = [tk] ∧
      s.world.trace.filter Event.isSend = (if 3 ≤ tk.pc.progress then [.send 0 c] else []) ∧
      (s.world.trace.filter Event.isRecv = [] ∨
        (s.world.trace.filter Event.isRecv = [.recv 0 c] ∧ 3 ≤ tk.pc.progress ∧
          s.world.chans = [[]])) ∧
      s.world.trace.filter Event.isCompletion
        = (s.world.trace.filter Event.isRecv).map fun _ => .waitRet (exitError c) := by
  obtain ⟨pre, conf, arr, size, argv, hpre, hd0, pc, buf, ext, c, ht, hc, htr, hpost, htask, -,
    hbuf, hres⟩ := Started_of_doneCh s h hd
  have hsend : ext.filter Event.isSend = (if 3 ≤ pc.progress then [.send 0 c] else []) := by
    rw [filter_through Event.isSend Event.isTask ext isSend_isTask, htask]
    cases pc <;> simp [taskEvents, Pc.progress, Event.isSend]
  have hcomp : ext.filter Event.isCompletion
      = (ext.filter Event.isRecv).map fun _ => .waitRet (exitError c) := by
    rw [filter_through Event.isCompletion Event.isResult ext isCompletion_isResult, hres]
    rw [List.filter_eq_self]
    intro x hx
    simp only [List.mem_map] at hx
    obtain ⟨_, -, rfl⟩ := hx
    exact exitError_isCompletion c
  refine ⟨?_, ?_, ?_, _, c, ht, ?_, ?_, ?_⟩
  · rw [htr, List.filter_append, List.filter_append, filter_pre isPre_not_makeChan pre hpre,
      filter_post isPost_not_makeChan ext hpost]
    rfl
  · rw [htr, List.filter_append, List.filter_append, filter_pre isPre_not_go pre hpre,
      filter_post isPost_not_go ext hpost]
    rfl
  · rw [htr, List.filter_append, List.filter_append, filter_pre isPre_not_startOk pre hpre,
      filter_post isPost_not_startOk ext hpost]
    rfl
  · rw [htr, List.filter_append, List.filter_append, filter_pre isPre_not_send pre hpre, hsend]
    rfl
  · have hall : s.world.trace.filter Event.isRecv = ext.filter Event.isRecv := by
      rw [htr, List.filter_append, List.filter_append, filter_pre isPre_not_recv pre hpre]
      rfl
    rw [hall]
    rcases hbuf with ⟨-, -, hr⟩ | ⟨-, -, hr⟩ | ⟨h3, hb, hr⟩
    · exact Or.inl hr
    · exact Or.inl hr
    · exact Or.inr ⟨hr, h3, by rw [hc, hb]⟩
  · have hall : s.world.trace.filter Event.isRecv = ext.filter Event.isRecv := by
      rw [htr, List.filter_append, List.filter_append, filter_pre isPre_not_recv pre hpre]
      rfl
    rw [hall, ← hcomp, htr, List.filter_append, List.filter_append,
      filter_pre isPre_not_completion pre hpre]
    rfl

/-- The counts in the trace of a reachable state that is not started. -/
theorem unstarted_counts (s : Sys) (h : Inv s) (hd : s.proc.doneCh = none) :
    s.world.chans = [] ∧ s.world.tasks = [] ∧
    s.world.trace.filter Event.isMakeChan = [] ∧
    s.world.trace.filter Event.isGo = [] ∧
    s.world.trace.filter Event.isStartOk = [] ∧
    s.world.trace.filter Event.isSend = [] ∧
    s.world.trace.filter Event.isRecv = [] ∧
    s.world.trace.filter Event.isCompletion = [] := by
  rcases h with ⟨-, hc, ht, hpre⟩ | ⟨pre, conf, arr, size, argv, -, hd0, -⟩
  · exact ⟨hc, ht, filter_pre isPre_not_makeChan _ hpre, filter_pre isPre_not_go _ hpre,
      filter_pre isPre_not_startOk _ hpre, filter_pre isPre_not_send _ hpre,
      filter_pre isPre_not_recv _ hpre, filter_pre isPre_not_completion _ hpre⟩
  · rw [hd] at hd0
    cases hd0

/-! ## Claims about every reachable state -/

/-- C6: in every state the process returned by `New` can reach, by any
sequence of calls of `Start`, `Wait` and `EmbeddedControlConn` interleaved with
the goroutine: at most one `Start` has returned nil, and one channel and one
goroutine have been made for it and none else; at most one send has been done,
exactly one once the goroutine is past its send; the channel never holds more
than one value; and the send of the goroutine never blocks: when the native
run has returned `c`, the step that sends `c` can be taken. -/
theorem channel_written_at_most_once (ctx : Option Context) (args : List GoString)
    (cancelled : List (Nat × CtxErr)) (s : Sys) (hr : Reachable ctx args cancelled s) :
    (s.world.trace.filter Event.isStartOk).length ≤ 1 ∧
    (s.world.trace.filter Event.isMakeChan).length
      = (s.world.trace.filter Event.isStartOk).length ∧
    (s.world.trace.filter Event.isGo).length = (s.world.trace.filter Event.isStartOk).length ∧
    s.world.chans.length = (s.world.trace.filter Event.isStartOk).length ∧
    s.world.tasks.length = (s.world.trace.filter Event.isStartOk).length ∧
    (s.world.trace.filter Event.isSend).length ≤ 1 ∧
    (∀ buf ∈ s.world.chans, buf.length ≤ 1) ∧
    (∀ tk, s.world.tasks = [tk] →
      (s.world.trace.filter Event.isSend).length = if 3 ≤ tk.pc.progress then 1 else 0) ∧
    (∀ tk c, s.world.tasks = [tk] → tk.pc = .returned c →
      ∃ s1, step s (.taskStep 0) = some s1 ∧ s1.world.chans = [[c]] ∧
        s1.world.trace = s.world.trace ++ [.send 0 c]) := by
  have hinv := Inv_of_reachable ctx args cancelled s hr
  by_cases hd : s.proc.doneCh = none
  · obtain ⟨hc, ht, h1, h2, h3, h4, -, -⟩ := unstarted_counts s hinv hd
    rw [h1, h2, h3, h4, hc, ht]
    refine ⟨by simp, rfl, rfl, rfl, rfl, by simp, by simp, ?_, ?_⟩
    · intro tk h; cases h
    · intro tk c h; cases h
  · obtain ⟨h1, h2, h3, tk, c, ht, h4, -, -⟩ := started_counts s hinv hd
    obtain ⟨hd0, tk1, buf, ht1, hc, hlen, hb⟩ := started_shape s hinv hd
    rw [ht] at ht1
    simp only [List.cons.injEq, and_true] at ht1
    subst ht1
    rw [h1, h2, h3, h4, hc, ht]
    refine ⟨by simp, rfl, rfl, rfl, rfl, by split <;> simp, ?_, ?_, ?_⟩
    · intro b hbm
      simp only [List.mem_singleton] at hbm
      rw [hbm]; exact hlen
    · intro tk2 h
      simp only [List.cons.injEq, and_true] at h
      subst h
      split <;> simp
    · intro tk2 c2 h hpc
      simp only [List.cons.injEq, and_true] at h
      subst h
      rcases tk with ⟨conf, arr, size, pc⟩
      simp only at hpc
      subst hpc
      obtain ⟨s1, hs1, ⟨-, -, -, -, htr1⟩, hc1, -⟩ := task_send s conf arr size c2 hd0
        (by rw [hc, hb (by simp [Pc.progress])]) ht
      exact ⟨s1, hs1, hc1, htr1⟩

theorem demoReturned_reachable : Reachable none [[97]] [] demoReturned :=
  ⟨[.start 0, .taskStep 0, .runReturn 0 3], by decide⟩

theorem channel_written_at_most_once_witness :
    ∃ s1, step demoReturned (.taskStep 0) = some s1 ∧ s1.world.chans = [[3]] ∧
      s1.world.trace = demoReturned.world.trace ++ [.send 0 3] :=
  (channel_written_at_most_once none [[97]] [] demoReturned demoReturned_reachable).2.2.2.2.2.2.2.2
    { conf := 0, charArray := 0, size := 2, pc := .returned 3 } 3 rfl rfl

/-- C10: in every reachable state at most one `Wait` has returned a completion
result (nil or a "Command completed with error exit code" error), one for each
receive from the channel; and once a `Wait` has received the code, in every
state that can follow the channel is empty and has been written once, so a
`Wait` can only return the error of the context, with nothing changed, and
blocks as long as the context is nil or not cancelled. -/
theorem one_wait_gets_the_result (ctx : Option Context) (args : List GoString)
    (cancelled : List (Nat × CtxErr)) (s : Sys) (hr : Reachable ctx args cancelled s) :
    (s.world.trace.filter Event.isCompletion).length ≤ 1 ∧
    (s.world.trace.filter Event.isCompletion).length
      = (s.world.trace.filter Event.isRecv).length ∧
    (s.world.trace.filter Event.isRecv ≠ [] →
      ∀ as s2, run s as = some s2 →
        s2.world.chans = [[]] ∧
        (s2.world.trace.filter Event.isSend).length = 1 ∧
        (s2.world.trace.filter Event.isCompletion).length = 1 ∧
        ∀ pick,
          (Wait s2.proc s2.world pick = none ∨
            ∃ err, Wait s2.proc s2.world pick
              = some (some (.ofContext err), s2.proc, s2.world)) ∧
          (s2.world.ctxErr (s2.proc.ctx.getD .background) = none →
            Wait s2.proc s2.world pick = none)) := by
  have hinv := Inv_of_reachable ctx args cancelled s hr
  have key : ∀ s2 : Sys, Inv s2 → s2.world.trace.filter Event.isRecv ≠ [] →
      s2.proc.doneCh = some 0 ∧ s2.world.chans = [[]] ∧
      (s2.world.trace.filter Event.isSend).length = 1 ∧
      (s2.world.trace.filter Event.isCompletion).length = 1 := by
    intro s2 hi hne
    have hd2 : s2.proc.doneCh ≠ none := by
      intro hd
      exact hne (unstarted_counts s2 hi hd).2.2.2.2.2.2.1
    obtain ⟨-, -, -, tk, c, -, h4, h5, h6⟩ := started_counts s2 hi hd2
    rcases h5 with h5 | ⟨h5, h3, hc⟩
    · exact absurd h5 hne
    · refine ⟨(started_shape s2 hi hd2).1, hc, ?_, ?_⟩
      · rw [h4, if_pos h3]; rfl
      · rw [h6, h5]; rfl
  refine ⟨?_, ?_, ?_⟩
  · by_cases hd : s.proc.doneCh = none
    · rw [(unstarted_counts s hinv hd).2.2.2.2.2.2.2]; simp
    · obtain ⟨-, -, -, tk, c, -, -, h5, h6⟩ := started_counts s hinv hd
      rw [h6]
      rcases h5 with h5 | ⟨h5, -, -⟩ <;> rw [h5] <;> simp
  · by_cases hd : s.proc.doneCh = none
    · rw [(unstarted_counts s hinv hd).2.2.2.2.2.2.2, (unstarted_counts s hinv hd).2.2.2.2.2.2.1]
    · obtain ⟨-, -, -, tk, c, -, -, -, h6⟩ := started_counts s hinv hd
      rw [h6, List.length_map]
  · intro hne as s2 hrun
    have hi2 := Inv_run as s s2 hinv hrun
    obtain ⟨l, hl⟩ := run_trace as s s2 hrun
    have hne2 : s2.world.trace.filter Event.isRecv ≠ [] := by
      rw [hl, List.filter_append]
      intro h
      exact hne (List.append_eq_nil.1 h).1
    obtain ⟨hd0, hc, hs, hcm⟩ := key s2 hi2 hne2
    refine ⟨hc, hs, hcm, ?_⟩
    intro pick
    have hb : s2.world.chans[0]?.getD [] = [] := by rw [hc]; rfl
    cases hx : s2.world.ctxErr (s2.proc.ctx.getD .background) with
    | none =>
      exact ⟨Or.inl (Wait_blocks _ _ pick 0 hd0 hb hx), fun _ => Wait_blocks _ _ pick 0 hd0 hb hx⟩
    | some err =>
      exact ⟨Or.inr ⟨err, Wait_cancelled _ _ pick 0 err hd0 hb hx⟩, fun h => by cases h⟩

theorem demoWaited_reachable : Reachable none [[97]] [] demoWaited :=
  ⟨[.start 0, .taskStep 0, .runReturn 0 3, .taskStep 0, .wait false], by decide⟩

theorem one_wait_gets_the_result_witness :
    Wait demoWaited.proc demoWaited.world true = none :=
  (((one_wait_gets_the_result none [[97]] [] demoWaited demoWaited_reachable).2.2 (by decide)
    [] demoWaited rfl).2.2.2 true).2 rfl

/-! ## The errors of `Start` and `Wait` -/

theorem startConfigured_failed (e : embeddedProcess) (w : World) (k size : Int)
    (argv : CharArrayPtr) (hk : k ≠ 0) :
    startConfigured e w k size argv
      = (some (.errorf ("Failed to set command line args, code: " ++ toString k)), e,
          { w with
            nextArr := w.nextArr + 1
            nextConf := w.nextConf + 1
            trace := w.trace ++ [.makeCharArray size w.nextArr, .confNew w.nextConf,
              .setCommandLine w.nextConf size argv k, .confFree w.nextConf,
              .freeCharArray w.nextArr size] }) := by
  simp [startConfigured, hk, World.log]

theorem startConfigured_ok (e : embeddedProcess) (w : World) (size : Int) (argv : CharArrayPtr) :
    startConfigured e w 0 size argv
      = (none, { e with doneCh := some w.chans.length },
          { w with
            nextArr := w.nextArr + 1
            nextConf := w.nextConf + 1
            chans := w.chans ++ [[]]
            tasks := w.tasks ++
              [{ conf := w.nextConf, charArray := w.nextArr, size := size, pc := .spawned }]
            trace := w.trace ++ [.makeCharArray size w.nextArr, .confNew w.nextConf,
              .setCommandLine w.nextConf size argv 0, .makeChan w.chans.length,
              .go w.tasks.length] }) := by
  simp [startConfigured]

theorem failed_ne_already (x : String) :
    "Failed to set command line args, code: " ++ x ≠ "Already started" := by
  intro h
  have h1 := congrArg String.length h
  rw [String.length_append] at h1
  have h2 : "Failed to set command line args, code: ".length = 39 := by decide
  have h3 : "Already started".length = 15 := by decide
  omega

/-- C5 as stated fails: `Start` on the process `New` returns, which is not
started, returns an error when the native configure call returns 1. -/
theorem start_error_without_being_started :
    (New none []).1.doneCh = none ∧
    Start (New none []).1 (World.init []) 1
      = .ok (some (.errorf "Failed to set command line args, code: 1"), (New none []).1,
          { chans := [], tasks := [], cancelled := [], nextConf := 1, nextArr := 1,
            trace := [.makeCharArray 1 0, .confNew 0,
              .setCommandLine 0 1 (some [some tor]) 1, .confFree 0, .freeCharArray 0 1] }) ∧
    Error.errorf "Failed to set command line args, code: 1" ≠ .errorf "Already started" := by
  refine ⟨rfl, ?_, by decide⟩
  rw [Start_unstarted _ _ 1 rfl (by decide), startConfigured_failed _ _ _ _ _ (by decide)]
  rfl

/-- C5, amended: every error `Start` or `Wait` returns is one of five: from
`Start`, "Already started" on a started process or "Failed to set command line
args, code: k" when the native configure call returns `k ≠ 0` on one that is
not started; from `Wait`, "Not started", the error made from a completion code
that is not 0, or the error of the context. `Start` returns an error if and
only if the process is started already or the configure call returns a code
that is not 0. -/
theorem errors_classified (e : embeddedProcess) (w : World) (k : Int) (pick : Bool) :
    (match Start e w k with
      | .error _ => True
      | .ok r =>
        ((r.1 = none ∧ e.doneCh = none ∧ k = 0) ∨
         (r.1 = some (.errorf "Already started") ∧ e.doneCh ≠ none) ∨
         (r.1 = some (.errorf ("Failed to set command line args, code: " ++ toString k)) ∧
           e.doneCh = none ∧ k ≠ 0)) ∧
        (r.1 ≠ none ↔ (e.doneCh ≠ none ∨ k ≠ 0))) ∧
    (match Wait e w pick with
      | none => True
      | some r =>
        r.1 = none ∨
        (r.1 = some (.errorf "Not started") ∧ e.doneCh = none) ∨
        (∃ c : Int, c ≠ 0 ∧ e.doneCh ≠ none ∧
          r.1 = some (.errorf ("Command completed with error exit code: " ++ toString c))) ∨
        (∃ err, e.doneCh ≠ none ∧ w.ctxErr (e.ctx.getD .background) = some err ∧
          r.1 = some (.ofContext err))) := by
  constructor
  · by_cases hd : e.doneCh = none
    · rcases Start_unstarted_cases e w k hd with ⟨f, hf⟩ | ⟨size, argv, hok⟩
      · rw [hf]; trivial
      · rw [hok]
        by_cases hk : k = 0
        · subst hk
          rw [startConfigured_ok]
          simp [hd]
        · rw [startConfigured_failed e w k size argv hk]
          simp [hd, hk]
    · rw [Start_started e w k hd]
      simp [hd]
  · cases hd : e.doneCh with
    | none =>
      rw [Wait_not_started e w pick hd]
      simp
    | some ch =>
      cases hw : Wait e w pick with
      | none => trivial
      | some r =>
        rcases Wait_started_cases e w pick ch hd r hw with ⟨err, hx, rfl⟩ | ⟨code, rest, -, rfl⟩
        · simp [hx]
        · by_cases hc : code = 0
          · left; simp [exitError, hc]
          · right; right; left
            exact ⟨code, hc, by simp, exitError_of_ne code hc⟩

/-! ## The argument vector -/

theorem New_args (ctx : Option Context) (args : List GoString) : (New ctx args).1.args = args := rfl

theorem New_doneCh (ctx : Option Context) (args : List GoString) : (New ctx args).1.doneCh = none :=
  rfl

theorem CString_tor : CString tor = tor := by decide

/-- A Go string without a NUL byte reaches C whole. -/
theorem CString_of_no_nul (s : GoString) (h : (0 : UInt8) ∉ s) : CString s = s := by
  induction s with
  | nil => rfl
  | cons b rest ih =>
    have hb : b ≠ 0 := fun hb => h (by rw [hb]; exact List.mem_cons_self _ _)
    have hr : (0 : UInt8) ∉ rest := fun hr => h (List.mem_cons_of_mem _ hr)
    have hstep : CString (b :: rest) = b :: CString rest := by
      simp [CString, List.takeWhile_cons, hb]
    rw [hstep, ih hr]

/-- C8 as stated fails in two ways. For an argument list of 2147483647 strings
the count `C.int(len(args))` is -2147483648, `calloc` returns NULL, and `Start`
faults in `setArrayString` before the native configure call. For the one
argument "a\x00b" (the bytes 97, 0, 98) the native configure call gets at
index 1 the C string "a" (the byte 97), which is not the argument. -/
theorem argument_vector_not_as_given :
    (cInt (startArgs (New none (List.replicate 2147483647 [])).1).length = -2147483648 ∧
      Start (New none (List.replicate 2147483647 [])).1 (World.init []) 0 = .error .segv) ∧
    (Start (New none [[97, 0, 98]]).1 (World.init []) 0
        = .ok (none, { ctx := none, args := [[97, 0, 98]], doneCh := some 0 },
            { chans := [[]]
              tasks := [{ conf := 0, charArray := 0, size := 2, pc := .spawned }]
              cancelled := []
              nextConf := 1
              nextArr := 1
              trace := [.makeCharArray 2 0, .confNew 0,
                .setCommandLine 0 2 (some [some tor, some [97]]) 0, .makeChan 0, .go 0] }) ∧
      ([97] : CStr) ≠ [97, 0, 98]) := by
  have hlen : (New none (List.replicate 2147483647 [])).1.args.length + 1 = 2147483648 := by
    rw [New_args, List.length_replicate]
  have hc : cInt ((2147483648 : Nat) : Int) = -2147483648 := by decide
  refine ⟨⟨?_, Start_fault _ _ _ (New_doneCh _ _) (le_of_eq hlen.symm)⟩, ?_, by decide⟩
  · rw [startArgs_length, hlen]
    exact hc
  · rw [Start_unstarted _ _ 0 rfl (by decide), startConfigured_ok]
    rfl

/-- C8, amended: for every argument list whose count with "tor" fits a C
`int` (`len(args) + 1 ≤ 2147483647`), `Start` on the process `New` returns
reaches the native configure call and passes it the count `len(args) + 1` and
the vector with "tor" at index 0 and, at index `i + 1`, the C string
`C.CString(args[i])`: `args[i]` up to its first NUL byte, so `args[i]` itself
when it has no NUL byte; the `args` of the struct are as before. -/
theorem start_passes_argument_vector (ctx : Option Context) (args : List GoString) (w : World)
    (k : Int) (hfit : args.length + 1 < 2147483648) :
    ∃ r argv rest, Start (New ctx args).1 w k = .ok r ∧
      r.2.1.args = args ∧
      r.2.2.trace = w.trace ++ [.makeCharArray (args.length + 1) w.nextArr, .confNew w.nextConf,
        .setCommandLine w.nextConf (args.length + 1) (some argv) k] ++ rest ∧
      argv = some tor :: cStrings args ∧
      argv.length = args.length + 1 ∧
      argv[0]? = some (some tor) ∧
      (∀ i (h : i < args.length),
        argv[i + 1]? = some (some (args[i].takeWhile (· ≠ 0)))) ∧
      (∀ i (h : i < args.length), (0 : UInt8) ∉ args[i] →
        argv[i + 1]? = some (some args[i])) := by
  have hget : ∀ i (h : i < args.length),
      (some tor :: cStrings args)[i + 1]? = some (some (CString args[i])) := by
    intro i h
    simp [cStrings, h]
  refine ⟨_, some tor :: cStrings args, if k ≠ 0 then [.confFree w.nextConf,
    .freeCharArray w.nextArr (args.length + 1)] else [.makeChan w.chans.length,
    .go w.tasks.length], Start_unstarted (New ctx args).1 w k rfl hfit, ?_, ?_, rfl,
    by simp [cStrings], by simp, ?_, ?_⟩
  · by_cases hk : k = 0
    · subst hk; rw [startConfigured_ok]; rfl
    · rw [startConfigured_failed _ _ _ _ _ hk]; rfl
  · by_cases hk : k = 0
    · subst hk; rw [startConfigured_ok]; simp [New]
    · rw [startConfigured_failed _ _ _ _ _ hk]; simp [New, hk]
  · intro i h
    exact hget i h
  · intro i h h0
    rw [hget i h, CString_of_no_nul _ h0]

theorem start_passes_argument_vector_witness :
    ∃ r argv rest,
      Start (New none [[45, 102], [116, 111, 114, 114, 99]]).1 (World.init []) 0 = .ok r ∧
      r.2.1.args = [[45, 102], [116, 111, 114, 114, 99]] ∧
      r.2.2.trace = (World.init []).trace ++
        [.makeCharArray (([[45, 102], [116, 111, 114, 114, 99]] : List GoString).length + 1) 0,
         .confNew 0,
         .setCommandLine 0 (([[45, 102], [116, 111, 114, 114, 99]] : List GoString).length + 1)
           (some argv) 0] ++ rest ∧
      argv = [some tor, some [45, 102], some [116, 111, 114, 114, 99]] :=
  have h := start_passes_argument_vector none [[45, 102], [116, 111, 114, 114, 99]]
    (World.init []) 0 (by decide)
  match h with
  | ⟨r, argv, rest, h1, h2, h3, h4, _⟩ => ⟨r, argv, rest, h1, h2, h3, by rw [h4]; decide⟩

/-! ## The two outcomes of the configure call -/

theorem Unstarted_of_inv (s : Sys) (h : Inv s) (hd : s.proc.doneCh = none) : Unstarted s := by
  rcases h with h | ⟨pre, conf, arr, size, argv, -, hd0, -⟩
  · exact h
  · rw [hd] at hd0; cases hd0

theorem step_start_fits (s : Sys) (k : Int) (hd : s.proc.doneCh = none)
    (hfit : s.proc.args.length + 1 < 2147483648) :
    step s (.start k) = some
      { proc := (startConfigured s.proc s.world k (s.proc.args.length + 1)
          (some (some tor :: cStrings s.proc.args))).2.1
        world := (startConfigured s.proc s.world k (s.proc.args.length + 1)
          (some (some tor :: cStrings s.proc.args))).2.2.log
          [.startRet (startConfigured s.proc s.world k (s.proc.args.length + 1)
            (some (some tor :: cStrings s.proc.args))).1] } := by
  simp only [step, Start_unstarted s.proc s.world k hd hfit]

/-- The state in which `Start` returns nil. -/
theorem step_start_ok (s : Sys) (h : Unstarted s) (hfit : s.proc.args.length + 1 < 2147483648) :
    ∃ s1, step s (.start 0) = some s1 ∧
      s1.proc = { s.proc with doneCh := some 0 } ∧
      s1.world.cancelled = s.world.cancelled ∧
      s1.world.trace = s.world.trace ++ startEvents s.world.nextConf s.world.nextArr
        (s.proc.args.length + 1) (some (some tor :: cStrings s.proc.args)) ∧
      Started (s.world.trace ++ startEvents s.world.nextConf s.world.nextArr
        (s.proc.args.length + 1) (some (some tor :: cStrings s.proc.args)))
        s.world.nextConf s.world.nextArr (s.proc.args.length + 1) s1 := by
  obtain ⟨hd, hc, ht, -⟩ := h
  refine ⟨_, step_start_fits s 0 hd hfit, ?_, ?_, ?_, ?_⟩
  · rw [startConfigured_ok]; simp [hc]
  · rw [startConfigured_ok]; rfl
  · rw [startConfigured_ok]; simp [World.log, startEvents, hc, ht]
  · rw [startConfigured_ok]
    refine ⟨by simp [hc], .spawned, [], [], 0, ?_, ?_, ?_, ?_, ?_, ?_, ?_, ?_⟩
    · simp [World.log, ht]
    · simp [World.log, hc]
    · simp [World.log, startEvents, hc, ht]
    · simp
    · simp [Pc.progress]
    · intro c1 h1; cases h1
    · left; simp [Pc.progress]
    · simp

/-- The state in which `Start` returns the error of the configure call. -/
theorem step_start_failed (s : Sys) (k : Int) (h : Unstarted s) (hk : k ≠ 0)
    (hfit : s.proc.args.length + 1 < 2147483648) :
    ∃ s1, step s (.start k) = some s1 ∧
      s1.proc = s.proc ∧ s1.world.chans = [] ∧ s1.world.tasks = [] ∧
      s1.world.trace = s.world.trace ++
        [.makeCharArray (s.proc.args.length + 1) s.world.nextArr, .confNew s.world.nextConf,
         .setCommandLine s.world.nextConf (s.proc.args.length + 1)
           (some (some tor :: cStrings s.proc.args)) k,
         .confFree s.world.nextConf,
         .freeCharArray s.world.nextArr (s.proc.args.length + 1),
         .startRet (some (.errorf ("Failed to set command line args, code: " ++ toString k)))] := by
  obtain ⟨hd, hc, ht, -⟩ := h
  refine ⟨_, step_start_fits s k hd hfit, ?_, ?_, ?_, ?_⟩
  · rw [startConfigured_failed _ _ _ _ _ hk]
  · rw [startConfigured_failed _ _ _ _ _ hk]; exact hc
  · rw [startConfigured_failed _ _ _ _ _ hk]; exact ht
  · rw [startConfigured_failed _ _ _ _ _ hk]; simp [World.log]

/-- The events of the goroutine recorded so far and those it still records
make its whole sequence, each event once. -/
theorem task_events_complete (conf arr : Nat) (size : Int) (pc : Pc) (c c1 : Int)
    (ext : List Event)
    (htask : ext.filter Event.isTask = (taskEvents conf arr size c1).take pc.progress)
    (hret : ∀ c2, pc = .returned c2 → c2 = c1) :
    ∃ c3, (ext ++ (taskEvents conf arr size (pc.code c)).drop pc.progress).filter Event.isTask
      = taskEvents conf arr size c3 := by
  rw [List.filter_append, htask]
  cases pc with
  | spawned => exact ⟨c, by simp [taskEvents, Pc.progress, Pc.code, Event.isTask]⟩
  | running => exact ⟨c, by simp [taskEvents, Pc.progress, Pc.code, Event.isTask]⟩
  | returned c2 =>
    have := hret c2 rfl
    subst this
    exact ⟨c2, by simp [taskEvents, Pc.progress, Pc.code, Event.isTask]⟩
  | sent => exact ⟨c1, by simp [taskEvents, Pc.progress, Pc.code, Event.isTask]⟩
  | confFreed => exact ⟨c1, by simp [taskEvents, Pc.progress, Pc.code, Event.isTask]⟩
  | done => exact ⟨c1, by simp [taskEvents, Pc.progress, Pc.code, Event.isTask]⟩

/-- C9: `Start` on a process that is not started (in a reachable state, with
an argument count that fits a C `int`, so that the native configure call is
reached) returns. If the configure call returns `k ≠ 0`: `Start` returns the
error "Failed to set command line args, code: k"; it has freed the
configuration and the array once each and has not called the native run; no
channel and no goroutine exist and `doneCh` is still nil, so a following
`Wait` returns "Not started" and a following `Start` is not rejected as
"Already started". If it returns 0: `Start` returns nil without freeing, the
process is started, and in every state that can follow the events of the
goroutine are a beginning of: call of the native run, its return, the send,
the free of the configuration, the free of the array; and the goroutine can
always run to its end, where each of them has happened exactly once. -/
theorem start_configure_outcomes (ctx : Option Context) (args : List GoString)
    (cancelled : List (Nat × CtxErr)) (s0 : Sys) (k c : Int) (pick : Bool)
    (hr : Reachable ctx args cancelled s0) (hd : s0.proc.doneCh = none)
    (hfit : s0.proc.args.length + 1 < 2147483648) :
    ∃ s1, step s0 (.start k) = some s1 ∧
      (k ≠ 0 →
        s1.proc = s0.proc ∧ s1.world.chans = [] ∧ s1.world.tasks = [] ∧
        s1.world.trace = s0.world.trace ++
          [.makeCharArray (s0.proc.args.length + 1) s0.world.nextArr,
           .confNew s0.world.nextConf,
           .setCommandLine s0.world.nextConf (s0.proc.args.length + 1)
             (some (some tor :: cStrings s0.proc.args)) k,
           .confFree s0.world.nextConf,
           .freeCharArray s0.world.nextArr (s0.proc.args.length + 1),
           .startRet (some (.errorf ("Failed to set command line args, code: " ++ toString k)))] ∧
        Wait s1.proc s1.world pick = some (some (.errorf "Not started"), s1.proc, s1.world) ∧
        ∀ k2, ∃ r, Start s1.proc s1.world k2 = .ok r ∧
          r.1 ≠ some (.errorf "Already started")) ∧
      (k = 0 →
        s1.proc = { s0.proc with doneCh := some 0 } ∧
        s1.world.trace = s0.world.trace ++ startEvents s0.world.nextConf s0.world.nextArr
          (s0.proc.args.length + 1) (some (some tor :: cStrings s0.proc.args)) ∧
        ∀ as s2, run s1 as = some s2 →
          ∃ pc ext c1 c3 s3,
            s2.world.tasks = [{ conf := s0.world.nextConf, charArray := s0.world.nextArr,
                                size := s0.proc.args.length + 1, pc := pc }] ∧
            s2.world.trace = s1.world.trace ++ ext ∧
            ext.filter Event.isTask
              = (taskEvents s0.world.nextConf s0.world.nextArr (s0.proc.args.length + 1) c1).take
                  pc.progress ∧
            run s2 (remaining pc c) = some s3 ∧
            s3.world.trace = s1.world.trace ++
              (ext ++ (taskEvents s0.world.nextConf s0.world.nextArr (s0.proc.args.length + 1)
                (pc.code c)).drop pc.progress) ∧
            (ext ++ (taskEvents s0.world.nextConf s0.world.nextArr (s0.proc.args.length + 1)
                (pc.code c)).drop pc.progress).filter Event.isTask
              = taskEvents s0.world.nextConf s0.world.nextArr (s0.proc.args.length + 1) c3) := by
  have hu := Unstarted_of_inv s0 (Inv_of_reachable ctx args cancelled s0 hr) hd
  by_cases hk : k = 0
  · subst hk
    obtain ⟨s1, hs1, hp1, -, htr1, hst1⟩ := step_start_ok s0 hu hfit
    refine ⟨s1, hs1, fun h => absurd rfl h, fun _ => ⟨hp1, htr1, ?_⟩⟩
    intro as s2 hrun
    obtain ⟨hd2, pc, buf, ext, c1, ht2, hc2, htr2, -, htask2, hret2, hbuf2, -⟩ :=
      Started_run _ _ _ _ as s1 s2 hst1 hrun
    obtain ⟨s3, h3, -, -, -, -, htr3⟩ := finish s2 _ _ _ pc c hd2 ht2 (by
      intro hp
      rcases hbuf2 with ⟨-, hb, -⟩ | ⟨h3, -, -⟩ | ⟨h3, -, -⟩
      · rw [hc2, hb]
      · omega
      · omega)
    obtain ⟨c3, hc3⟩ := task_events_complete s0.world.nextConf s0.world.nextArr
      (s0.proc.args.length + 1) pc c c1 ext htask2 hret2
    refine ⟨pc, ext, c1, c3, s3, ht2, by rw [htr2, htr1], htask2, h3, ?_, hc3⟩
    rw [htr3, htr2, htr1, List.append_assoc]
  · obtain ⟨s1, hs1, hp1, hc1, ht1, htr1⟩ := step_start_failed s0 k hu hk hfit
    refine ⟨s1, hs1, fun _ => ⟨hp1, hc1, ht1, htr1, ?_, ?_⟩, fun h => absurd h hk⟩
    · exact Wait_not_started _ _ pick (by rw [hp1]; exact hd)
    · intro k2
      refine ⟨_, Start_unstarted s1.proc s1.world k2 (by rw [hp1]; exact hd)
        (by rw [hp1]; exact hfit), ?_⟩
      by_cases hk2 : k2 = 0
      · subst hk2; rw [startConfigured_ok]; simp
      · rw [startConfigured_failed _ _ _ _ _ hk2]
        simp only [ne_eq, Option.some.injEq, Error.errorf.injEq]
        exact failed_ne_already _

theorem start_configure_outcomes_witness :
    ∃ s1, step (Sys.init none [[97]] []) (.start 7) = some s1 ∧
      s1.proc = (Sys.init none [[97]] []).proc ∧ s1.world.chans = [] ∧ s1.world.tasks = [] ∧
      s1.world.trace = [.makeCharArray 2 0, .confNew 0,
        .setCommandLine 0 2 (some [some tor, some [97]]) 7, .confFree 0, .freeCharArray 0 2,
        .startRet (some (.errorf "Failed to set command line args, code: 7"))] ∧
      Wait s1.proc s1.world false = some (some (.errorf "Not started"), s1.proc, s1.world) := by
  obtain ⟨s1, h1, h2, -⟩ := start_configure_outcomes none [[97]] [] (Sys.init none [[97]] []) 7 0
    false ⟨[], rfl⟩ rfl (by decide)
  obtain ⟨hp, hc, ht, htr, hw, -⟩ := h2 (by decide)
  exact ⟨s1, h1, hp, hc, ht, htr, hw⟩

end Tor033
